import Mathlib

/-!
Shallow embedding of the blueband-db vector database (Rust) used to check the
natural-language specification against the source.  The embedding mirrors:

* src/src/types.rs                  (entity records, validation helpers)
* src/src/storage/collections.rs    (collection registry, admin model)
* src/src/storage/documents.rs      (documents, chunk store, sliding-window chunking)
* src/src/storage/vectors.rs        (vector store, per-collection index, batch insert)
* src/src/compute/cache.rs          (bounded LRU cache)
* src/src/compute/mod.rs            (embedding validation, norms, cosine similarity)
* src/src/compute/similarity.rs     (exact and approximate similarity search)
* src/src/lib.rs                    (public facade, ingest-and-embed with compensation)

Modelling conventions:

* The stable BTree maps are modelled as association lists with unique keys;
  the map operations (insert = replace-or-append, remove = erase first binding)
  match the map semantics of the source.  Iteration order of the model is the
  association-list order (the source iterates BTree maps in key order and one
  Rust HashMap in unspecified order; no claim checked here depends on which
  deterministic order is used).
* Rust f32/f64 values are modelled by the type F32 below: an exact rational
  together with the IEEE special values NaN and the two infinities.  Rounding
  and overflow are not modelled; none of the checked claims depends on a
  rounded value, only on comparisons, finiteness tests and exact zeros.
* Every storage operation takes the state explicitly and returns the pair of
  the Rust return value and the post state: a Rust function that returns Err
  after having already mutated the thread-local maps is modelled faithfully
  (the returned state carries the partial mutation).
* Host inputs that come from outside the checked code (the IC time source,
  the SHA-256 based id hash, the SHA-256 content checksum, and the outcome of
  the external embedding HTTP call) are passed as explicit parameters.
-/

set_option maxHeartbeats 1600000

namespace Blueband

/-- Model of a Rust IEEE-754 float (f32 or f64): an exact rational plus the
special values.  Rounding and overflow are not modelled. -/
inductive F32 where
  | finite (q : ℚ)
  | nan
  | inf
  | ninf
deriving DecidableEq, Repr

/-- Rust `is_finite`. -/
def F32.isFinite : F32 → Bool
  | .finite _ => true
  | _ => false

/-- Rust `<` on floats: any comparison involving NaN is false. -/
def F32.blt : F32 → F32 → Bool
  | .finite a, .finite b => decide (a < b)
  | .finite _, .inf => true
  | .ninf, .finite _ => true
  | .ninf, .inf => true
  | _, _ => false

/-- Rust `<=` on floats: any comparison involving NaN is false. -/
def F32.ble : F32 → F32 → Bool
  | .finite a, .finite b => decide (a ≤ b)
  | .finite _, .inf => true
  | .ninf, .finite _ => true
  | .ninf, .inf => true
  | .ninf, .ninf => true
  | .inf, .inf => true
  | _, _ => false

/-- Float addition with IEEE special-value propagation (exact on finites). -/
def F32.add : F32 → F32 → F32
  | .finite a, .finite b => .finite (a + b)
  | .nan, _ => .nan
  | _, .nan => .nan
  | .inf, .ninf => .nan
  | .ninf, .inf => .nan
  | .inf, _ => .inf
  | _, .inf => .inf
  | .ninf, _ => .ninf
  | _, .ninf => .ninf

/-- Float subtraction with IEEE special-value propagation (exact on finites). -/
def F32.sub : F32 → F32 → F32
  | .finite a, .finite b => .finite (a - b)
  | .nan, _ => .nan
  | _, .nan => .nan
  | .inf, .inf => .nan
  | .ninf, .ninf => .nan
  | .inf, _ => .inf
  | _, .inf => .ninf
  | .ninf, _ => .ninf
  | _, .ninf => .inf

/-- Float multiplication with IEEE special-value propagation (exact on finites,
signed zeros not distinguished). -/
def F32.mul : F32 → F32 → F32
  | .finite a, .finite b => .finite (a * b)
  | .nan, _ => .nan
  | _, .nan => .nan
  | .inf, .inf => .inf
  | .inf, .ninf => .ninf
  | .ninf, .inf => .ninf
  | .ninf, .ninf => .inf
  | .inf, .finite b => if b = 0 then .nan else if 0 < b then .inf else .ninf
  | .finite a, .inf => if a = 0 then .nan else if 0 < a then .inf else .ninf
  | .ninf, .finite b => if b = 0 then .nan else if 0 < b then .ninf else .inf
  | .finite a, .ninf => if a = 0 then .nan else if 0 < a then .ninf else .inf

/-- Float division with IEEE special-value propagation (exact on finites,
signed zeros not distinguished: finite / 0 follows the sign of the numerator). -/
def F32.div : F32 → F32 → F32
  | .nan, _ => .nan
  | _, .nan => .nan
  | .finite a, .finite b =>
      if b = 0 then (if a = 0 then .nan else if 0 < a then .inf else .ninf)
      else .finite (a / b)
  | .finite _, .inf => .finite 0
  | .finite _, .ninf => .finite 0
  | .inf, .finite b => if 0 ≤ b then .inf else .ninf
  | .ninf, .finite b => if 0 ≤ b then .ninf else .inf
  | _, _ => .nan

/-- Rational square-root approximation used to model `f32::sqrt` on finite
values: exact on 0 and on perfect squares, an under-approximation otherwise
(no checked claim depends on the rounded value of a square root). -/
def ratSqrt (q : ℚ) : ℚ :=
  (Nat.sqrt (q.num.toNat * q.den) : ℚ) / (q.den : ℚ)

/-- Float square root: NaN on negative inputs and NaN, inf on inf. -/
def F32.fsqrt : F32 → F32
  | .nan => .nan
  | .inf => .inf
  | .ninf => .nan
  | .finite q => if q < 0 then .nan else .finite (ratSqrt q)

/-- Rust `f32::min` (returns the other operand when one side is NaN). -/
def F32.fmin : F32 → F32 → F32
  | .nan, b => b
  | a, .nan => a
  | a, b => if F32.ble a b then a else b

/-- Saturating float-to-usize cast (Rust `as usize`): NaN and negatives go to
0; positive infinity saturates (the saturation bound is irrelevant to the
claims and is taken as 2^64 - 1). -/
def F32.toUsize : F32 → Nat
  | .nan => 0
  | .ninf => 0
  | .inf => 2 ^ 64 - 1
  | .finite q => if q ≤ 0 then 0 else min q.floor.toNat (2 ^ 64 - 1)

/-- Exact cast of an unsigned integer into the float model. -/
def F32.ofNat (n : Nat) : F32 := .finite (n : ℚ)

instance : Inhabited F32 := ⟨.finite 0⟩

end Blueband

namespace Blueband

/-! ### Association-list model of the stable maps -/

/-- Lookup of the first binding of a key (StableBTreeMap `get`). -/
def alookup {β : Type} (k : String) : List (String × β) → Option β
  | [] => none
  | (k2, v) :: rest => if k2 = k then some v else alookup k rest

/-- StableBTreeMap `contains_key`. -/
def acontains {β : Type} (k : String) (l : List (String × β)) : Bool :=
  (alookup k l).isSome

/-- StableBTreeMap `insert`: replace the binding in place, or append. -/
def ainsert {β : Type} (k : String) (v : β) : List (String × β) → List (String × β)
  | [] => [(k, v)]
  | (k2, v2) :: rest => if k2 = k then (k, v) :: rest else (k2, v2) :: ainsert k v rest

instance {ε α : Type} [DecidableEq ε] [DecidableEq α] : DecidableEq (Except ε α)
  | .error e1, .error e2 =>
      if h : e1 = e2 then isTrue (by rw [h]) else isFalse (by simp [h])
  | .error _, .ok _ => isFalse (by simp)
  | .ok _, .error _ => isFalse (by simp)
  | .ok a1, .ok a2 =>
      if h : a1 = a2 then isTrue (by rw [h]) else isFalse (by simp [h])

/-- StableBTreeMap `remove`: erase the (unique) binding of the key. -/
def aerase {β : Type} (k : String) : List (String × β) → List (String × β)
  | [] => []
  | (k2, v2) :: rest => if k2 = k then rest else (k2, v2) :: aerase k rest

theorem alookup_ainsert_self {β : Type} (k : String) (v : β) (l : List (String × β)) :
    alookup k (ainsert k v l) = some v := by
  induction l with
  | nil => simp [ainsert, alookup]
  | cons p rest ih =>
      obtain ⟨k2, v2⟩ := p
      by_cases h : k2 = k <;> simp [ainsert, alookup, h, ih]

theorem alookup_ainsert_ne {β : Type} {k k2 : String} (v : β) (l : List (String × β))
    (h : k ≠ k2) : alookup k2 (ainsert k v l) = alookup k2 l := by
  induction l with
  | nil => simp [ainsert, alookup, h]
  | cons p rest ih =>
      obtain ⟨k3, v3⟩ := p
      by_cases h3 : k3 = k
      · subst h3
        simp [ainsert, alookup, h]
      · simp only [ainsert, if_neg h3]
        by_cases h4 : k3 = k2 <;> simp [alookup, h4, ih]

theorem ainsert_lookup_eq {β : Type} {k : String} {v : β} {l : List (String × β)}
    (h : alookup k l = some v) : ainsert k v l = l := by
  induction l with
  | nil => simp [alookup] at h
  | cons p rest ih =>
      obtain ⟨k2, v2⟩ := p
      by_cases h2 : k2 = k
      · subst h2
        simp [alookup] at h
        simp [ainsert, h]
      · simp [alookup, h2] at h
        simp [ainsert, h2, ih h]

theorem ainsert_not_mem {β : Type} {k : String} (v : β) {l : List (String × β)}
    (h : alookup k l = none) : ainsert k v l = l ++ [(k, v)] := by
  induction l with
  | nil => simp [ainsert]
  | cons p rest ih =>
      obtain ⟨k2, v2⟩ := p
      by_cases h2 : k2 = k
      · simp [alookup, h2] at h
      · simp [alookup, h2] at h
        simp [ainsert, h2, ih h]

theorem aerase_not_mem {β : Type} {k : String} {l : List (String × β)}
    (h : alookup k l = none) : aerase k l = l := by
  induction l with
  | nil => simp [aerase]
  | cons p rest ih =>
      obtain ⟨k2, v2⟩ := p
      by_cases h2 : k2 = k
      · simp [alookup, h2] at h
      · simp [alookup, h2] at h
        simp [aerase, h2, ih h]

theorem aerase_ainsert {β : Type} {k : String} (v : β) {l : List (String × β)}
    (h : alookup k l = none) : aerase k (ainsert k v l) = l := by
  rw [ainsert_not_mem v h]
  induction l with
  | nil => simp [aerase]
  | cons p rest ih =>
      obtain ⟨k2, v2⟩ := p
      by_cases h2 : k2 = k
      · simp [alookup, h2] at h
      · simp [alookup, h2] at h
        simp [aerase, h2, ih h]

theorem alookup_eq_none_of_not_mem {β : Type} {k : String} {l : List (String × β)}
    (h : k ∉ l.map Prod.fst) : alookup k l = none := by
  induction l with
  | nil => simp [alookup]
  | cons p rest ih =>
      obtain ⟨k2, v2⟩ := p
      simp only [List.map_cons, List.mem_cons] at h
      push_neg at h
      have hne : ¬ k2 = k := fun he => h.1 he.symm
      simp [alookup, hne, ih h.2]

theorem alookup_aerase_self {β : Type} {k : String} {l : List (String × β)}
    (hnd : (l.map Prod.fst).Nodup) : alookup k (aerase k l) = none := by
  induction l with
  | nil => simp [aerase, alookup]
  | cons p rest ih =>
      obtain ⟨k2, v2⟩ := p
      simp only [List.map_cons, List.nodup_cons] at hnd
      by_cases h2 : k2 = k
      · subst h2
        simp only [aerase, if_pos rfl]
        exact alookup_eq_none_of_not_mem hnd.1
      · simp [aerase, h2, alookup, ih hnd.2]

theorem alookup_isSome_ainsert {β : Type} {k k2 : String} {v : β} {l : List (String × β)}
    (h : (alookup k l).isSome) : (alookup k (ainsert k2 v l)).isSome := by
  by_cases hk : k2 = k
  · subst hk
    simp [alookup_ainsert_self]
  · rw [alookup_ainsert_ne v l hk]
    exact h

theorem mem_values_ainsert {β : Type} {k : String} {v w : β} {l : List (String × β)}
    (h : w ∈ (ainsert k v l).map Prod.snd) : w = v ∨ w ∈ l.map Prod.snd := by
  induction l with
  | nil =>
      simp [ainsert] at h
      exact Or.inl h
  | cons p rest ih =>
      obtain ⟨k2, v2⟩ := p
      by_cases h2 : k2 = k
      · simp [ainsert, h2] at h
        rcases h with h | h
        · exact Or.inl h
        · exact Or.inr (by simp [h])
      · simp [ainsert, h2] at h
        rcases h with h | h
        · exact Or.inr (by simp [h])
        · rcases ih (by simpa using h) with h3 | h3
          · exact Or.inl h3
          · exact Or.inr (by simp [h3] )

theorem alookup_mem_values {β : Type} {k : String} {v : β} {l : List (String × β)}
    (h : alookup k l = some v) : v ∈ l.map Prod.snd := by
  induction l with
  | nil => simp [alookup] at h
  | cons p rest ih =>
      obtain ⟨k2, v2⟩ := p
      by_cases h2 : k2 = k
      · simp [alookup, h2] at h
        simp [h]
      · simp [alookup, h2] at h
        simp [ih h]

end Blueband

namespace Blueband

/-! ### Entity records (src/src/types.rs) -/

/-- types.rs `ContentType`. -/
inductive ContentType where
  | PlainText
  | Markdown
  | Html
  | Pdf
  | Other (s : String)
deriving DecidableEq, Repr

/-- types.rs `CollectionSettings` (chunk sizes are u32). -/
structure CollectionSettings where
  embedding_model : String
  proxy_url : String
  chunk_size : Nat
  chunk_overlap : Nat
  max_documents : Option Nat
  auto_embed : Bool
deriving DecidableEq, Repr

/-- types.rs `Collection`. -/
structure Collection where
  id : String
  name : String
  description : Option String
  created_at : Nat
  updated_at : Nat
  genesis_admin : String
  admins : List String
  settings : CollectionSettings
deriving DecidableEq, Repr

/-- types.rs `DocumentMetadata`.  Rust strings of text content are modelled as
lists of characters so that UTF-8 byte positions can be computed. -/
structure DocumentMetadata where
  id : String
  collection_id : String
  title : String
  content_type : ContentType
  source_url : Option String
  timestamp : Nat
  total_chunks : Nat
  size : Nat
  is_embedded : Bool
  checksum : String
deriving DecidableEq, Repr

/-- types.rs `SemanticChunk`. -/
structure SemanticChunk where
  id : String
  document_id : String
  text : List Char
  position : Nat
  char_start : Nat
  char_end : Nat
  token_count : Option Nat
deriving DecidableEq, Repr

/-- types.rs `Vector`. -/
structure Vector where
  id : String
  document_id : String
  chunk_id : String
  embedding : List F32
  norm : F32
  model : String
  created_at : Nat
deriving DecidableEq, Repr, Inhabited

/-- types.rs `VectorMatch` (scores are f64, modelled by F32). -/
structure VectorMatch where
  score : F32
  document_id : String
  chunk_id : String
  document_title : Option String
  chunk_text : Option (List Char)
deriving DecidableEq, Repr

/-- types.rs `AddDocumentRequest` (author/tags do not exist in types.rs). -/
structure AddDocumentRequest where
  collection_id : String
  title : String
  content : List Char
  content_type : Option ContentType
  source_url : Option String
deriving DecidableEq, Repr

/-- The thread-local stable maps of the storage layer, gathered into one
record: collections.rs COLLECTIONS, documents.rs DOCUMENTS / DOCUMENT_CHUNKS /
DOCUMENT_INDEX, vectors.rs VECTORS / VECTOR_INDEX. -/
structure StorageState where
  collections : List (String × Collection)
  documents : List (String × DocumentMetadata)
  chunks : List (String × List SemanticChunk)
  vectors : List (String × Vector)
  doc_index : List (String × List String)
  vec_index : List (String × List String)
deriving DecidableEq, Repr

/-! ### Identifier and byte-length helpers (types.rs) -/

/-- Lowercase hex digit, as produced by a Rust format of kind lower-hex. -/
def hexChar (d : Nat) : Char :=
  if d < 10 then Char.ofNat (48 + d) else Char.ofNat (87 + d)

/-- Hex digits of a natural number, most significant first (fuel-indexed). -/
def natToHexAux : Nat → Nat → List Char
  | 0, _ => []
  | fuel + 1, n =>
      if n < 16 then [hexChar n] else natToHexAux fuel (n / 16) ++ [hexChar (n % 16)]

/-- Lower-hex rendering of a u64 value, no leading zeros (0 renders as 0). -/
def natToHexString (n : Nat) : String := String.mk (natToHexAux (n + 1) n)

/-- types.rs `generate_id`.  The source feeds SHA-256(content, time) through a
fold into a u64 and formats it in lower hex; the hash value is external input
here and is passed as the parameter hashVal. -/
def generate_id (pre : String) (hashVal : Nat) : String :=
  pre ++ "_" ++ natToHexString hashVal

/-- UTF-8 byte length of a text, Rust `str::len`. -/
def byteLen (content : List Char) : Nat := (content.map Char.utf8Size).sum

/-- Drop exactly k UTF-8 bytes from the front; none when k is not on a
character boundary or past the end (a Rust byte-slice of a str panics there). -/
def byteDrop : List Char → Nat → Option (List Char)
  | l, 0 => some l
  | [], _ + 1 => none
  | c :: rest, k + 1 =>
      if c.utf8Size ≤ k + 1 then byteDrop rest (k + 1 - c.utf8Size) else none

/-- Take exactly k UTF-8 bytes from the front; none when k is not on a
character boundary or past the end. -/
def byteTake : List Char → Nat → Option (List Char)
  | _, 0 => some []
  | [], _ + 1 => none
  | c :: rest, k + 1 =>
      if c.utf8Size ≤ k + 1 then (byteTake rest (k + 1 - c.utf8Size)).map (c :: ·) else none

/-- Rust byte-range slice content[start..e] of a str: defined exactly when both
ends are character boundaries (otherwise the source panics). -/
def byteSlice (content : List Char) (start e : Nat) : Option (List Char) :=
  (byteDrop content start).bind (fun t => byteTake t (e - start))

/-- types.rs `validate_collection_id`. -/
def validate_collection_id (id : String) : Except String Unit :=
  if id.isEmpty || id.length > 64 then .error "Collection ID must be 1-64 characters"
  else if ¬ (id.toList.all (fun c => c.isAlphanum || c = '_' || c = '-')) then
    .error "Collection ID must contain only alphanumeric characters, underscores, and hyphens"
  else if id.startsWith "__" || id = "admin" || id = "system" then
    .error "Collection ID uses reserved prefix or keyword"
  else .ok ()

/-- types.rs `validate_document_content` (the 10 MB limit is on bytes). -/
def validate_document_content (content : List Char) : Except String Unit :=
  if content.isEmpty then .error "Document content cannot be empty"
  else if byteLen content > 10000000 then .error "Document content exceeds 10MB limit"
  else .ok ()

end Blueband

namespace Blueband

/-! ### Collection registry (src/src/storage/collections.rs) -/

/-- collections.rs `get_collection`. -/
def get_collection (st : StorageState) (collection_id : String) : Option Collection :=
  alookup collection_id st.collections

/-- collections.rs `collection_exists`. -/
def collection_exists (st : StorageState) (collection_id : String) : Bool :=
  acontains collection_id st.collections

/-- collections.rs `list_collections` (values in map iteration order). -/
def list_collections (st : StorageState) : List Collection :=
  st.collections.map Prod.snd

/-- collections.rs `is_collection_admin`. -/
def is_collection_admin (st : StorageState) (collection_id caller : String) : Bool :=
  match alookup collection_id st.collections with
  | some collection => collection.genesis_admin = caller || collection.admins.contains caller
  | none => false

/-- collections.rs `AdminLevel`. -/
inductive AdminLevel where
  | Genesis
  | Regular
  | None
deriving DecidableEq, Repr

/-- collections.rs `get_admin_level`. -/
def get_admin_level (st : StorageState) (collection_id caller : String) : AdminLevel :=
  match alookup collection_id st.collections with
  | some collection =>
      if collection.genesis_admin = caller then .Genesis
      else if collection.admins.contains caller then .Regular
      else .None
  | none => .None

/-- collections.rs `require_genesis_admin`. -/
def require_genesis_admin (st : StorageState) (collection_id caller : String) :
    Except String Unit :=
  match get_admin_level st collection_id caller with
  | .Genesis => .ok ()
  | .Regular => .error "Genesis admin access required"
  | .None => .error "Admin access required"

/-- collections.rs `get_genesis_admin`. -/
def get_genesis_admin (st : StorageState) (collection_id : String) : Option String :=
  (alookup collection_id st.collections).map (fun c => c.genesis_admin)

/-- collections.rs `transfer_genesis_admin`; `now` models `current_time()`. -/
def transfer_genesis_admin (now : Nat) (collection_id new_genesis_admin caller : String)
    (st : StorageState) : Except String Unit × StorageState :=
  match alookup collection_id st.collections with
  | some collection =>
      if collection.genesis_admin ≠ caller then
        (.error "Only the current genesis admin can transfer ownership", st)
      else if ¬ collection.admins.contains new_genesis_admin then
        (.error "New genesis admin must be an existing admin", st)
      else
        let updated := { collection with genesis_admin := new_genesis_admin, updated_at := now }
        (.ok (), { st with collections := ainsert collection_id updated st.collections })
  | none => (.error "Collection not found", st)

/-- collections.rs `delete_collection`: removes the collection record, then
`vectors::cleanup_collection_index` (removes the vector-index entry) and
`documents::cleanup_collection_document_index` (removes the document-index
entry).  Nothing else is touched. -/
def delete_collection (collection_id caller : String) (st : StorageState) :
    Except String Unit × StorageState :=
  match require_genesis_admin st collection_id caller with
  | .error e => (.error e, st)
  | .ok _ =>
      if acontains collection_id st.collections then
        (.ok (), { st with
          collections := aerase collection_id st.collections,
          vec_index := aerase collection_id st.vec_index,
          doc_index := aerase collection_id st.doc_index })
      else (.error "Collection not found", st)

/-! ### Document and chunk store (src/src/storage/documents.rs) -/

/-- documents.rs composite storage key for DOCUMENTS. -/
def composite_key (collection_id document_id : String) : String :=
  collection_id ++ "::" ++ document_id

/-- documents.rs `estimate_tokens`: ceil(byte length / 4), the f32 arithmetic
of the source is exact in this range. -/
def estimate_tokens (text : List Char) : Nat := (byteLen text + 3) / 4

/-- Rust `str::trim().is_empty()` for a chunk text: true when every character
is whitespace.  (The source trims Unicode whitespace; the model uses Lean
`Char.isWhitespace`, which agrees on ASCII.) -/
def trim_empty (text : List Char) : Bool := text.all (fun c => c.isWhitespace)

/-- One iteration of the documents.rs `create_semantic_chunks` while-loop,
fuel-indexed.  `none` models a panic (byte slice off a character boundary) or
divergence of the loop (possible when chunk_overlap ≥ chunk_size); either way
the canister call traps and no state is committed. -/
def chunks_loop (content : List Char) (document_id : String) (csize ov : Nat) :
    Nat → Nat → Nat → Option (List SemanticChunk)
  | 0, _, _ => none
  | fuel + 1, start, position =>
      if start < byteLen content then
        let e := min (start + csize) (byteLen content)
        match byteSlice content start e with
        | none => none
        | some chunk_text =>
            let emitted := !trim_empty chunk_text
            let rest :=
              if e ≥ byteLen content then some []
              else chunks_loop content document_id csize ov fuel (e - min ov e)
                     (if emitted then position + 1 else position)
            rest.map (fun tail =>
              if emitted then
                { id := "chunk_" ++ toString position
                  document_id := document_id
                  text := chunk_text
                  position := position
                  char_start := start
                  char_end := e
                  token_count := some (estimate_tokens chunk_text) } :: tail
              else tail)
      else some []

/-- documents.rs `create_semantic_chunks`.  The loop advances through byte
positions of the content (`content.len()` and `content[start..end]` in the
source are byte-based); the fuel byteLen+1 is enough whenever the stride is
positive. -/
def create_semantic_chunks (content : List Char) (document_id : String)
    (settings : CollectionSettings) : Option (List SemanticChunk) :=
  chunks_loop content document_id settings.chunk_size settings.chunk_overlap
    (byteLen content + 1) 0 0

/-- documents.rs `count_collection_documents`. -/
def count_collection_documents (st : StorageState) (collection_id : String) : Nat :=
  ((alookup collection_id st.doc_index).map List.length).getD 0

/-- documents.rs `document_exists` (a direct lookup of the composite key in
the DOCUMENTS map, not routed through the index). -/
def document_exists (st : StorageState) (collection_id document_id : String) : Bool :=
  acontains (composite_key collection_id document_id) st.documents

/-- documents.rs `add_document`; `now` models `current_time()`, `idHash` the
SHA-256 based value behind `generate_id`, `checksum` the SHA-256 hex checksum
of the content (both computed by an external crate). -/
def add_document (now idHash : Nat) (checksum : String) (request : AddDocumentRequest)
    (st : StorageState) : Except String DocumentMetadata × StorageState :=
  match validate_document_content request.content with
  | .error e => (.error e, st)
  | .ok _ =>
    match alookup request.collection_id st.collections with
    | none => (.error "Collection not found", st)
    | some collection =>
      let capacity_ok :=
        match collection.settings.max_documents with
        | some max_docs => count_collection_documents st request.collection_id < max_docs
        | none => true
      if capacity_ok = false then (.error "Collection has reached maximum documents", st)
      else
        let document_id := generate_id "doc" idHash
        let storage_key := composite_key request.collection_id document_id
        match create_semantic_chunks request.content document_id collection.settings with
        | none => (.error "trap: chunk slicing panicked or chunk loop diverged", st)
        | some chunk_list =>
          let document : DocumentMetadata :=
            { id := document_id
              collection_id := request.collection_id
              title := request.title
              content_type := request.content_type.getD .PlainText
              source_url := request.source_url
              timestamp := now
              total_chunks := chunk_list.length
              size := byteLen request.content
              is_embedded := false
              checksum := checksum }
          (.ok document, { st with
            documents := ainsert storage_key document st.documents,
            chunks := ainsert document_id chunk_list st.chunks,
            doc_index := ainsert request.collection_id
              (((alookup request.collection_id st.doc_index).getD []) ++ [document_id])
              st.doc_index })

/-- documents.rs `get_document`: authoritative only through the collection's
document index. -/
def get_document (st : StorageState) (collection_id document_id : String) :
    Option DocumentMetadata :=
  match alookup collection_id st.doc_index with
  | some doc_ids =>
      if doc_ids.contains document_id then
        alookup (composite_key collection_id document_id) st.documents
      else none
  | none => none

/-- documents.rs `list_documents`. -/
def list_documents (st : StorageState) (collection_id : String) : List DocumentMetadata :=
  match alookup collection_id st.doc_index with
  | some doc_ids => doc_ids.filterMap (fun d => get_document st collection_id d)
  | none => []

/-- documents.rs `delete_document`: removes the chunk list unconditionally,
then strips the id from the collection's document index.  The DOCUMENTS map is
not touched.  When the index entry is missing the function returns Err, but
the chunk removal has already happened (the source mutates global maps before
the fallible step), hence the returned state pair. -/
def delete_document (collection_id document_id : String) (st : StorageState) :
    Except String Unit × StorageState :=
  let st1 := { st with chunks := aerase document_id st.chunks }
  match alookup collection_id st1.doc_index with
  | some doc_ids =>
      let remaining := doc_ids.filter (fun i => i ≠ document_id)
      (.ok (), { st1 with doc_index := ainsert collection_id remaining st1.doc_index })
  | none => (.error "Collection not found", st1)

/-- documents.rs `mark_document_embedded`. -/
def mark_document_embedded (collection_id document_id : String) (st : StorageState) :
    Except String Unit × StorageState :=
  let storage_key := composite_key collection_id document_id
  match alookup storage_key st.documents with
  | some doc =>
      let updated := { doc with is_embedded := true }
      (.ok (), { st with documents := ainsert storage_key updated st.documents })
  | none => (.error "Document not found in collection", st)

/-- documents.rs `get_document_chunks`. -/
def get_document_chunks (st : StorageState) (document_id : String) : List SemanticChunk :=
  (alookup document_id st.chunks).getD []

/-- documents.rs `get_chunk`. -/
def get_chunk (st : StorageState) (document_id chunk_id : String) : Option SemanticChunk :=
  (get_document_chunks st document_id).find? (fun c => c.id = chunk_id)

/-- documents.rs `get_chunk_text`. -/
def get_chunk_text (st : StorageState) (document_id chunk_id : String) :
    Option (List Char) :=
  (get_chunk st document_id chunk_id).map (fun c => c.text)

/-- documents.rs `get_document_title`. -/
def get_document_title (st : StorageState) (collection_id document_id : String) :
    Option String :=
  (get_document st collection_id document_id).map (fun d => d.title)

/-- documents.rs `get_collection_documents`: looks up each indexed document id
as a plain key of the DOCUMENTS map (not the composite key). -/
def get_collection_documents (st : StorageState) (collection_id : String) :
    List DocumentMetadata :=
  match alookup collection_id st.doc_index with
  | some doc_ids => doc_ids.filterMap (fun d => alookup d st.documents)
  | none => []

end Blueband

namespace Blueband

/-! ### Vector store (src/src/storage/vectors.rs) -/

/-- vectors.rs `extract_collection_id_from_document_id`: scan all collections
for one that contains the document (composite-key lookup). -/
def extract_collection_id_from_document_id (st : StorageState) (document_id : String) :
    Except String String :=
  match (list_collections st).find? (fun c => document_exists st c.id document_id) with
  | some c => .ok c.id
  | none => .error "Could not determine collection for document"

/-- vectors.rs `store_vector`: validation, dependency checks, then upsert of
the vector and (only for a new id) append to the collection's vector-id list,
inside one scope. -/
def store_vector (vector : Vector) (st : StorageState) :
    Except String Unit × StorageState :=
  if vector.embedding.isEmpty then (.error "Vector embedding cannot be empty", st)
  else if F32.ble vector.norm (F32.finite 0) || !vector.norm.isFinite then
    (.error "Vector norm must be positive and finite", st)
  else
    match extract_collection_id_from_document_id st vector.document_id with
    | .error e => (.error e, st)
    | .ok collection_id =>
      if !collection_exists st collection_id then (.error "Collection not found", st)
      else if !document_exists st collection_id vector.document_id then
        (.error "Document not found", st)
      else
        let vector_exists := acontains vector.id st.vectors
        let vectors2 := ainsert vector.id vector st.vectors
        if vector_exists then (.ok (), { st with vectors := vectors2 })
        else
          let vector_ids := ((alookup collection_id st.vec_index).getD []) ++ [vector.id]
          (.ok (), { st with vectors := vectors2,
                             vec_index := ainsert collection_id vector_ids st.vec_index })

/-- vectors.rs `get_collection_vectors`: index lookup then per-id fetch. -/
def get_collection_vectors (st : StorageState) (collection_id : String) : List Vector :=
  match alookup collection_id st.vec_index with
  | some vector_ids => vector_ids.filterMap (fun i => alookup i st.vectors)
  | none => []

/-- vectors.rs `validate_vectors`: walks the whole VECTOR_INDEX and reports
only ids that are missing from the VECTORS map.  No collection argument, no
repair, no state change. -/
def validate_vectors (st : StorageState) : List String :=
  (st.vec_index.map (fun p =>
    (p.2.filter (fun i => !acontains i st.vectors)).map (fun i =>
      "Vector " ++ i ++ " in collection " ++ p.1 ++ " not found in vectors map"))).flatten

/-- Fail-fast validation pass of vectors.rs `store_vectors_batch` (the source
formats the offending index into the message; messages are simplified). -/
def validate_batch : List Vector → Option String
  | [] => none
  | v :: rest =>
      if v.embedding.isEmpty then some "Vector has empty embedding"
      else if F32.ble v.norm (F32.finite 0) || !v.norm.isFinite then
        some "Vector has invalid norm"
      else validate_batch rest

/-- Grouping step of `store_vectors_batch`: each vector is routed to its
collection (first-seen group order; the source uses a HashMap whose iteration
order is unspecified). -/
def group_by_collection (st : StorageState) :
    List Vector → List (String × List Vector) → Except String (List (String × List Vector))
  | [], acc => .ok acc
  | v :: rest, acc =>
      match extract_collection_id_from_document_id st v.document_id with
      | .error e => .error e
      | .ok cid =>
          group_by_collection st rest (ainsert cid (((alookup cid acc).getD []) ++ [v]) acc)

/-- The per-collection atomic scope of `store_vectors_batch`: upsert every
vector of the group and append the ids that were new. -/
def insert_group : List Vector → List (String × Vector) → List String →
    List (String × Vector) × List String × Nat
  | [], vmap, ids => (vmap, ids, 0)
  | v :: rest, vmap, ids =>
      let vector_exists := acontains v.id vmap
      let vmap2 := ainsert v.id v vmap
      let ids2 := if vector_exists then ids else ids ++ [v.id]
      let r := insert_group rest vmap2 ids2
      (r.1, r.2.1, r.2.2 + 1)

/-- The group loop of `store_vectors_batch`: per group, check the collection
exists, then commit the group's inserts and the index rewrite.  An error on a
later group leaves the earlier groups committed (the source returns Err from
inside the loop after earlier iterations already wrote). -/
def process_groups : List (String × List Vector) → StorageState → Nat →
    Except String Nat × StorageState
  | [], st, acc => (.ok acc, st)
  | (cid, gvs) :: rest, st, acc =>
      if !collection_exists st cid then (.error "Collection not found", st)
      else
        let r := insert_group gvs st.vectors ((alookup cid st.vec_index).getD [])
        process_groups rest
          { st with vectors := r.1, vec_index := ainsert cid r.2.1 st.vec_index }
          (acc + r.2.2)

/-- vectors.rs `store_vectors_batch`. -/
def store_vectors_batch (vectors : List Vector) (st : StorageState) :
    Except String Nat × StorageState :=
  if vectors.isEmpty then (.ok 0, st)
  else
    match validate_batch vectors with
    | some e => (.error e, st)
    | none =>
        match group_by_collection st vectors [] with
        | .error e => (.error e, st)
        | .ok groups => process_groups groups st 0

/-! ### Public facade (src/src/lib.rs) -/

/-- lib.rs `validate_collection_vectors`: the collection argument is accepted
and ignored; the call forwards to the global `validate_vectors` scan. -/
def validate_collection_vectors (_collection_id : String) (st : StorageState) :
    List String :=
  validate_vectors st

/-- lib.rs `add_document_and_embed`.  The outcome of the external embedding
call (`compute::embed_document_chunks`) is the parameter embed_result; the
cache invalidation on the success path touches only the in-memory cache and
is not part of this storage state.  Any stage failure after the document was
added runs the compensating `delete_document`, whose own result is discarded. -/
def add_document_and_embed (now idHash : Nat) (checksum : String)
    (embed_result : Except String (List Vector)) (caller : String)
    (request : AddDocumentRequest) (st : StorageState) :
    Except String DocumentMetadata × StorageState :=
  if !is_collection_admin st request.collection_id caller then
    (.error "Only collection admins can add documents", st)
  else
    match alookup request.collection_id st.collections with
    | none => (.error "Collection not found", st)
    | some _collection =>
      match add_document now idHash checksum request st with
      | (.error e, st1) => (.error e, st1)
      | (.ok document, st1) =>
        match embed_result with
        | .error e =>
            let d := delete_document document.collection_id document.id st1
            (.error ("Failed to generate embeddings: " ++ e), d.2)
        | .ok vectors =>
            match store_vectors_batch vectors st1 with
            | (.error e, st2) =>
                let d := delete_document document.collection_id document.id st2
                (.error ("Failed to store vectors: " ++ e), d.2)
            | (.ok _, st2) =>
                match mark_document_embedded document.collection_id document.id st2 with
                | (.error e, st3) => (.error e, st3)
                | (.ok _, st3) => (.ok document, st3)

end Blueband

namespace Blueband

/-! ### Bounded LRU cache (src/src/compute/cache.rs) -/

/-- cache.rs `CacheEntry`. -/
structure CacheEntry where
  vectors : List Vector
  timestamp : Nat
  last_accessed : Nat
  memory_size : Nat
deriving DecidableEq, Repr

/-- cache.rs `BoundedCache`; the HashMap of entries is modelled as an
association list (iteration order is irrelevant: the source iterates it only
to collect expired ids and to sum sizes). -/
structure BoundedCache where
  entries : List (String × CacheEntry)
  access_order : List String
  total_memory : Nat
  max_memory : Nat
  max_entries : Nat
deriving DecidableEq, Repr

/-- cache.rs `CACHE_TTL` (nanoseconds). -/
def CACHE_TTL : Nat := 24 * 60 * 60 * 1000000000

/-- cache.rs `BoundedCache::new`. -/
def BoundedCache.new (max_memory max_entries : Nat) : BoundedCache :=
  { entries := [], access_order := [], total_memory := 0,
    max_memory := max_memory, max_entries := max_entries }

/-- cache.rs `BoundedCache::remove_entry` (saturating subtraction as in the
source; Nat subtraction is saturating). -/
def BoundedCache.remove_entry (c : BoundedCache) (collection_id : String) : BoundedCache :=
  match alookup collection_id c.entries with
  | some entry =>
      { c with entries := aerase collection_id c.entries,
               total_memory := c.total_memory - entry.memory_size,
               access_order := c.access_order.filter (fun i => i ≠ collection_id) }
  | none => c

/-- cache.rs `BoundedCache::remove_expired_entries`: collect the ids whose age
reached the TTL, then remove them one by one.  Rust computes now - timestamp
in u64; entries are always stamped with a past time, and Nat subtraction
agrees there. -/
def BoundedCache.remove_expired_entries (c : BoundedCache) (now : Nat) : BoundedCache :=
  let expired := (c.entries.filter (fun p => now - p.2.timestamp ≥ CACHE_TTL)).map Prod.fst
  expired.foldl (fun acc i => acc.remove_entry i) c

/-- The eviction while-loop of cache.rs `make_space_for`: while the (stale)
total or the entry count would overflow the bounds and the order list is
non-empty, pop the least recently used id and drop its entry.  The loop never
updates total_memory (the source recalculates after the loop).  The loop is
written over the order list and the entries map; `total` stays at its stale
pre-loop value exactly as in the source. -/
def evict_loop (m e total maxM maxE : Nat) :
    List String → List (String × CacheEntry) →
    List (String × CacheEntry) × List String
  | [], entries => (entries, [])
  | lru :: rest, entries =>
      if total + m > maxM ∨ entries.length + e > maxE then
        evict_loop m e total maxM maxE rest (aerase lru entries)
      else (entries, lru :: rest)

/-- The eviction loop applied to a cache value. -/
def BoundedCache.evict_lru (needed_memory needed_entries : Nat) (c : BoundedCache) :
    BoundedCache :=
  let r := evict_loop needed_memory needed_entries c.total_memory c.max_memory
    c.max_entries c.access_order c.entries
  { c with entries := r.1, access_order := r.2 }

/-- cache.rs `BoundedCache::recalculate_memory`. -/
def BoundedCache.recalculate_memory (c : BoundedCache) : BoundedCache :=
  { c with total_memory := (c.entries.map (fun p => p.2.memory_size)).sum }

/-- cache.rs `BoundedCache::make_space_for`: purge expired entries first, then
evict from the least-recently-used end, then recalculate the total. -/
def BoundedCache.make_space_for (c : BoundedCache) (now needed_memory needed_entries : Nat) :
    BoundedCache :=
  ((c.remove_expired_entries now).evict_lru needed_memory needed_entries).recalculate_memory

/-- cache.rs `estimate_vectors_memory_size`.  `struct_size` stands for the Rust
compile-time `size_of::<Vector>()`, which depends on the target layout; no
theorem below depends on its value. -/
def rustVectorStructSize : Nat := 64

/-- Memory estimate of a cached vector set (cache.rs
`estimate_vectors_memory_size`): per vector, the struct overhead plus four
bytes per embedding entry plus the lengths of the id, document, chunk and
model strings. -/
def estimate_vectors_memory_size (vectors : List Vector) : Nat :=
  (vectors.map (fun v =>
    rustVectorStructSize + v.embedding.length * 4 +
      v.id.length + v.document_id.length + v.chunk_id.length + v.model.length)).sum

/-- cache.rs `BoundedCache::insert`: remove an existing entry for the same
collection, make room, insert, append the id at the most-recent end, add the
new size to the total. -/
def BoundedCache.insert (c : BoundedCache) (now : Nat) (collection_id : String)
    (vectors : List Vector) : BoundedCache :=
  let memory_size := estimate_vectors_memory_size vectors
  let c1 := if acontains collection_id c.entries then c.remove_entry collection_id else c
  let c2 := c1.make_space_for now memory_size 1
  { c2 with
    entries := ainsert collection_id
      { vectors := vectors, timestamp := now, last_accessed := now,
        memory_size := memory_size } c2.entries,
    access_order := c2.access_order ++ [collection_id],
    total_memory := c2.total_memory + memory_size }

end Blueband

namespace Blueband

/-! ### Embedding validation and scoring (src/src/compute/mod.rs) -/

/-- compute/mod.rs `validate_embedding` (the source reports the offending
index; messages are simplified). -/
def validate_embedding (embedding : List F32) : Except String Unit :=
  if embedding.isEmpty then .error "Embedding is empty"
  else if embedding.all (fun v => v.isFinite) then .ok ()
  else .error "Invalid value in embedding"

/-- Rust `iter().map(f).sum::<f32>()`: left fold of float addition from 0. -/
def fsum (l : List F32) : F32 := l.foldl F32.add (F32.finite 0)

/-- compute/mod.rs `calculate_norm`. -/
def calculate_norm (embedding : List F32) : Except String F32 :=
  match validate_embedding embedding with
  | .error e => .error e
  | .ok _ =>
      let norm := (fsum (embedding.map (fun x => F32.mul x x))).fsqrt
      if !norm.isFinite || F32.ble norm (F32.finite 0) then .error "Invalid norm"
      else .ok norm

/-- compute/mod.rs `cosine_similarity`: dot product over the precomputed
norms; the f32 result is widened to f64 (the widening is exact and is the
identity in this model). -/
def cosine_similarity (a b : List F32) (norm_a norm_b : F32) : Except String F32 :=
  if a.length ≠ b.length then .error "Dimension mismatch"
  else
    let dot := fsum (List.zipWith F32.mul a b)
    let similarity := F32.div dot (F32.mul norm_a norm_b)
    if !similarity.isFinite then .error "Invalid similarity result"
    else .ok similarity

/-! ### Similarity search (src/src/compute/similarity.rs) -/

/-- similarity.rs `SimilarityConfig` (scores and the factor are floats). -/
structure SimilarityConfig where
  min_score : Option F32
  max_results : Nat
  use_approximate : Bool
  candidate_factor : F32
deriving DecidableEq, Repr

/-- similarity.rs `euclidean_distance`. -/
def euclidean_distance (a b : List F32) : F32 :=
  (fsum (List.zipWith (fun x y => F32.mul (F32.sub x y) (F32.sub x y)) a b)).fsqrt

/-- Distance of an embedding to the closest of the chosen centroids
(similarity.rs kmeans_plus_plus_init inner fold, Rust fold over f32::min
starting from INFINITY). -/
def min_dist_to (centroids : List (List F32)) (emb : List F32) : F32 :=
  (centroids.map (fun c => euclidean_distance emb c)).foldl F32.fmin F32.inf

/-- Index of the vector farthest (by minimal distance to the chosen
centroids) from the current centroids; first index wins ties, starting from
index 0 and distance 0 as in the source. -/
def select_farthest (vectors : List Vector) (centroids : List (List F32)) : Nat :=
  (vectors.enum.foldl
    (fun best p =>
      let d := min_dist_to centroids p.2.embedding
      if F32.blt best.2 d then (p.1, d) else best)
    (0, F32.finite 0)).1

/-- The centroid-selection loop of similarity.rs `kmeans_plus_plus_init`. -/
def kpp_loop (vectors : List Vector) : Nat → List (List F32) → List (List F32)
  | 0, centroids => centroids
  | n + 1, centroids =>
      let idx := select_farthest vectors centroids
      kpp_loop vectors n
        (centroids ++ [((vectors.get? idx).getD default).embedding])

/-- similarity.rs `kmeans_plus_plus_init`: first centroid is the first
vector, each further centroid the vector maximising the minimal distance. -/
def kmeans_plus_plus_init (vectors : List Vector) (k : Nat) : List (List F32) :=
  match vectors with
  | [] => []
  | v0 :: _ => kpp_loop vectors (k - 1) [v0.embedding]

/-- Nearest-centroid assignment of one embedding (similarity.rs assignment
pass; strict `<` against a running best starting at INFINITY, first minimum
wins). -/
def assign_one (centroids : List (List F32)) (emb : List F32) : Nat :=
  (centroids.enum.foldl
    (fun best p =>
      let d := euclidean_distance emb p.2
      if F32.blt d best.2 then (p.1, d) else best)
    (0, F32.inf)).1

/-- Pointwise accumulation of an embedding into a centroid sum row.  The
source indexes the row by the embedding position (and would panic on an
overlong embedding); the model truncates to the shorter list. -/
def add_into (row emb : List F32) : List F32 :=
  (List.zipWith F32.add row emb) ++ row.drop emb.length

/-- similarity.rs `update_centroids`: per-cluster mean of the assigned
vectors; clusters with no members keep the freshly zeroed row. -/
def update_centroids (vectors : List Vector) (assignments : List Nat)
    (k dimensions : Nat) : List (List F32) :=
  let pairs := List.zip vectors assignments
  (List.range k).map (fun ci =>
    let members := (pairs.filter (fun p => p.2 = ci)).map (fun p => p.1.embedding)
    let total := members.foldl add_into (List.replicate dimensions (F32.finite 0))
    match members.length with
    | 0 => total
    | n + 1 => total.map (fun x => F32.div x (F32.ofNat (n + 1))))

/-- The Lloyd iteration loop of similarity.rs `simple_kmeans` (at most 10
iterations; stop early when no assignment changes). -/
def lloyd_loop (vectors : List Vector) (k dimensions : Nat) :
    Nat → List (List F32) → List Nat → List (List F32) × List Nat
  | 0, centroids, assignments => (centroids, assignments)
  | n + 1, centroids, assignments =>
      let assignments2 := vectors.map (fun v => assign_one centroids v.embedding)
      if assignments2 = assignments then (centroids, assignments)
      else lloyd_loop vectors k dimensions n
        (update_centroids vectors assignments2 k dimensions) assignments2

/-- similarity.rs `simple_kmeans`. -/
def simple_kmeans (vectors : List Vector) (k : Nat) : List (List F32) × List Nat :=
  if vectors.isEmpty || k = 0 then ([], [])
  else
    let dimensions := ((vectors.headD default).embedding).length
    let k2 := min k vectors.length
    lloyd_loop vectors k2 dimensions 10 (kmeans_plus_plus_init vectors k2)
      (List.replicate vectors.length 0)

/-- similarity.rs `VectorIndex`. -/
structure VectorIndex where
  centroids : List (List F32)
  clusters : List (List Nat)
  vectors : List Vector
  dimensions : Nat
  cluster_count : Nat
deriving DecidableEq, Repr

/-- similarity.rs `VectorIndex::build`. -/
def VectorIndex.build (vectors : List Vector) (target_clusters : Nat) : VectorIndex :=
  match vectors with
  | [] => { centroids := [], clusters := [], vectors := [], dimensions := 0,
            cluster_count := 0 }
  | v0 :: _ =>
      let dimensions := v0.embedding.length
      let actual_clusters := min target_clusters vectors.length
      let km := simple_kmeans vectors actual_clusters
      let clusters := (List.range actual_clusters).map (fun ci =>
        (km.2.enum.filter (fun p => p.2 = ci)).map Prod.fst)
      { centroids := km.1, clusters := clusters, vectors := vectors,
        dimensions := dimensions, cluster_count := actual_clusters }

/-- Stable descending sort by score, Rust
`sort_by(partial_cmp(b, a).unwrap_or(Equal))`: an element moves after another
only when its score is strictly smaller (NaN compares equal). -/
def sort_desc {α : Type} (l : List (F32 × α)) : List (F32 × α) :=
  l.mergeSort (fun a b => !F32.blt a.1 b.1)

/-- similarity.rs `VectorIndex::find_best_clusters`: rank clusters by cosine
similarity of the query to the centroid, accumulate from the best until the
candidate budget is reached. -/
def find_best_clusters (idx : VectorIndex) (query : List F32) (query_norm : F32)
    (candidate_count : Nat) : List Nat :=
  let cluster_scores := idx.centroids.enum.filterMap (fun p =>
    match calculate_norm p.2 with
    | .ok centroid_norm =>
        match cosine_similarity query p.2 query_norm centroid_norm with
        | .ok s => some (s, p.1)
        | .error _ => none
    | .error _ => none)
  let ranked := sort_desc cluster_scores
  let step := fun (acc : List Nat × Nat) (p : F32 × Nat) =>
    if acc.2 ≥ candidate_count then acc
    else (acc.1 ++ [p.2], acc.2 + ((idx.clusters.get? p.2).getD []).length)
  (ranked.foldl step ([], 0)).1

/-- Scoring of one candidate vector against the query (shared by the exact
scan and the in-cluster refinement): skip on dimension mismatch, skip on a
similarity error, skip under the minimum score. -/
def score_vector (query : List F32) (query_norm : F32) (config : SimilarityConfig)
    (v : Vector) : Option (F32 × Vector) :=
  if v.embedding.length ≠ query.length then none
  else
    match cosine_similarity query v.embedding query_norm v.norm with
    | .ok similarity =>
        match config.min_score with
        | some ms => if F32.blt similarity ms then none else some (similarity, v)
        | none => some (similarity, v)
    | .error _ => none

/-- similarity.rs `VectorIndex::search_approximate`. -/
def search_approximate (idx : VectorIndex) (query : List F32)
    (config : SimilarityConfig) : Except String (List (F32 × Vector)) :=
  if idx.centroids.isEmpty then .ok []
  else
    match calculate_norm query with
    | .error e => .error e
    | .ok query_norm =>
        let candidate_count :=
          (F32.mul (F32.ofNat config.max_results) config.candidate_factor).toUsize
        let promising := find_best_clusters idx query query_norm candidate_count
        let candidates := promising.flatMap (fun ci =>
          ((idx.clusters.get? ci).getD []).filterMap (fun vi =>
            (idx.vectors.get? vi).bind (score_vector query query_norm config)))
        .ok ((sort_desc candidates).take config.max_results)

/-- similarity.rs `exact_similarity_search`. -/
def exact_similarity_search (query : List F32) (vectors : List Vector)
    (config : SimilarityConfig) : Except String (List (F32 × Vector)) :=
  match calculate_norm query with
  | .error e => .error e
  | .ok query_norm =>
      let scored := vectors.filterMap (score_vector query query_norm config)
      .ok ((sort_desc scored).take config.max_results)

/-- Enrichment step of similarity.rs `cosine_similarity_search`: attach the
document title and the chunk text to every scored vector. -/
def enrich_matches (st : StorageState) (collection_id : String)
    (scored : List (F32 × Vector)) : List VectorMatch :=
  scored.map (fun p =>
    { score := p.1
      document_id := p.2.document_id
      chunk_id := p.2.chunk_id
      document_title := get_document_title st collection_id p.2.document_id
      chunk_text := get_chunk_text st p.2.document_id p.2.chunk_id })

/-- similarity.rs `cosine_similarity_search`.  The vector fetch goes through
the read-through cache (`cache::get_cached_vectors`), which returns the
stored vector set of the collection; the model reads storage directly. -/
def cosine_similarity_search (query : List F32) (collection_id : String)
    (config : SimilarityConfig) (st : StorageState) :
    Except String (List VectorMatch) :=
  match validate_embedding query with
  | .error e => .error e
  | .ok _ =>
      let vectors := get_collection_vectors st collection_id
      if vectors.isEmpty then .ok []
      else
        let scored :=
          if config.use_approximate ∧ vectors.length > 1000 then
            let target_clusters := min (max (vectors.length / 100) 10) 100
            search_approximate (VectorIndex.build vectors target_clusters) query config
          else exact_similarity_search query vectors config
        match scored with
        | .error e => .error e
        | .ok scored_vectors => .ok (enrich_matches st collection_id scored_vectors)

end Blueband

namespace Blueband

/-! ### Claim C7: genesis-admin transfer -/

/-- Claim C7: for every existing collection, `transfer_genesis_admin`
succeeds iff the caller is the current genesis admin and the target is a
member of the admins list; on success the genesis admin becomes the target;
on failure the state is unchanged. -/
theorem transfer_genesis_admin_correct (now : Nat) (cid p caller : String)
    (st : StorageState) (col : Collection)
    (hcol : alookup cid st.collections = some col) :
    ((transfer_genesis_admin now cid p caller st).1 = .ok () ↔
      (caller = col.genesis_admin ∧ p ∈ col.admins))
    ∧ ((transfer_genesis_admin now cid p caller st).1 = .ok () →
        get_genesis_admin (transfer_genesis_admin now cid p caller st).2 cid = some p)
    ∧ (∀ e, (transfer_genesis_admin now cid p caller st).1 = .error e →
        (transfer_genesis_admin now cid p caller st).2 = st) := by
  unfold transfer_genesis_admin
  rw [hcol]
  by_cases hg : col.genesis_admin = caller
  · by_cases ha : col.admins.contains p
    · simp only [hg, ne_eq, not_true_eq_false, if_false, ha, not_true_eq_false]
      refine ⟨?_, ?_, ?_⟩
      · have hmem : p ∈ col.admins := List.elem_iff.mp ha
        simp [hg.symm, hmem]
      · intro _
        simp [get_genesis_admin, alookup_ainsert_self]
      · intro e he
        simp at he
    · simp only [hg, ne_eq, not_true_eq_false, if_false, ha, not_false_eq_true, if_true]
      refine ⟨?_, ?_, ?_⟩
      · constructor
        · intro he
          simp at he
        · rintro ⟨_, hp⟩
          exact absurd (List.elem_iff.mpr hp) (by simpa using ha)
      · intro he
        simp at he
      · intro e _
        trivial
  · have hne : col.genesis_admin ≠ caller := hg
    simp only [ne_eq, hne, not_false_eq_true, if_true]
    refine ⟨?_, ?_, ?_⟩
    · constructor
      · intro he
        simp at he
      · rintro ⟨hc, _⟩
        exact absurd hc.symm hg
    · intro he
      simp at he
    · intro e _
      trivial

/-- Concrete collection used by the C7 witness. -/
def c7Settings : CollectionSettings :=
  { embedding_model := "text-embedding-ada-002", proxy_url := "https://proxy.example",
    chunk_size := 512, chunk_overlap := 64, max_documents := none, auto_embed := true }

/-- Concrete collection used by the C7 witness. -/
def c7Col : Collection :=
  { id := "docs", name := "Docs", description := none, created_at := 1, updated_at := 1,
    genesis_admin := "alice", admins := ["alice", "bob"], settings := c7Settings }

/-- Concrete state used by the C7 witness. -/
def c7St : StorageState :=
  { collections := [("docs", c7Col)], documents := [], chunks := [], vectors := [],
    doc_index := [("docs", [])], vec_index := [("docs", [])] }

/-- Witness for C7 at a concrete input. -/
theorem transfer_genesis_admin_correct_witness :
    ((transfer_genesis_admin 5 "docs" "bob" "alice" c7St).1 = .ok () ↔
      ("alice" = c7Col.genesis_admin ∧ "bob" ∈ c7Col.admins))
    ∧ ((transfer_genesis_admin 5 "docs" "bob" "alice" c7St).1 = .ok () →
        get_genesis_admin (transfer_genesis_admin 5 "docs" "bob" "alice" c7St).2 "docs" =
          some "bob")
    ∧ (∀ e, (transfer_genesis_admin 5 "docs" "bob" "alice" c7St).1 = .error e →
        (transfer_genesis_admin 5 "docs" "bob" "alice" c7St).2 = c7St) :=
  transfer_genesis_admin_correct 5 "docs" "bob" "alice" c7St c7Col (by decide)

end Blueband

namespace Blueband

/-! ### Claim C1: delete_collection cleanup -/

/-- Concrete document used by the C1 state. -/
def c1Doc : DocumentMetadata :=
  { id := "d", collection_id := "c", title := "t", content_type := .PlainText,
    source_url := none, timestamp := 1, total_chunks := 1, size := 2,
    is_embedded := true, checksum := "cafe" }

/-- Concrete chunk used by the C1 state. -/
def c1Chunk : SemanticChunk :=
  { id := "chunk_0", document_id := "d", text := ['h', 'i'], position := 0,
    char_start := 0, char_end := 2, token_count := some 1 }

/-- Concrete vector used by the C1 state. -/
def c1Vec : Vector :=
  { id := "v1", document_id := "d", chunk_id := "chunk_0",
    embedding := [F32.finite 1], norm := F32.finite 1, model := "m", created_at := 1 }

/-- Concrete state used by the C1 counterexample: one collection with one
document, its chunk list and one vector, all indexed. -/
def c1St : StorageState :=
  { collections := [("c",
      { id := "c", name := "C", description := none, created_at := 1, updated_at := 1,
        genesis_admin := "g", admins := ["g"], settings := c7Settings })],
    documents := [("c::d", c1Doc)],
    chunks := [("d", [c1Chunk])],
    vectors := [("v1", c1Vec)],
    doc_index := [("c", ["d"])],
    vec_index := [("c", ["v1"])] }

/-- Counterexample to C1: the genesis admin deletes collection c and the call
succeeds, yet the documents, chunks and vectors maps still hold the entries
keyed by c and by its document d — the deletion does not cascade. -/
theorem delete_collection_no_cascade_cex :
    (delete_collection "c" "g" c1St).1 = .ok ()
    ∧ alookup "c::d" (delete_collection "c" "g" c1St).2.documents = some c1Doc
    ∧ alookup "d" (delete_collection "c" "g" c1St).2.chunks = some [c1Chunk]
    ∧ alookup "v1" (delete_collection "c" "g" c1St).2.vectors = some c1Vec := by
  refine ⟨by decide, by decide, by decide, by decide⟩

/-- Claim C1 (amended): a successful `delete_collection(c, caller)` removes
the collection record and both index entries for c, and leaves the documents,
chunks and vectors maps entirely unchanged (documents, chunks and vectors of
the collection are orphaned, not deleted). -/
theorem delete_collection_removes_only_indices (cid caller : String) (st : StorageState)
    (hnc : (st.collections.map Prod.fst).Nodup)
    (hnd : (st.doc_index.map Prod.fst).Nodup)
    (hnv : (st.vec_index.map Prod.fst).Nodup)
    (hok : (delete_collection cid caller st).1 = .ok ()) :
    (delete_collection cid caller st).2.documents = st.documents
    ∧ (delete_collection cid caller st).2.chunks = st.chunks
    ∧ (delete_collection cid caller st).2.vectors = st.vectors
    ∧ alookup cid (delete_collection cid caller st).2.collections = none
    ∧ alookup cid (delete_collection cid caller st).2.doc_index = none
    ∧ alookup cid (delete_collection cid caller st).2.vec_index = none := by
  unfold delete_collection at hok ⊢
  cases hreq : require_genesis_admin st cid caller with
  | error e =>
      simp [hreq] at hok
  | ok u =>
      simp only [hreq] at hok ⊢
      by_cases hc : acontains cid st.collections
      · rw [if_pos hc]
        exact ⟨rfl, rfl, rfl, alookup_aerase_self hnc, alookup_aerase_self hnd,
          alookup_aerase_self hnv⟩
      · rw [if_neg hc] at hok
        simp at hok

/-- Witness for the amended C1 theorem at the concrete C1 state. -/
theorem delete_collection_removes_only_indices_witness :
    (delete_collection "c" "g" c1St).2.documents = c1St.documents
    ∧ (delete_collection "c" "g" c1St).2.chunks = c1St.chunks
    ∧ (delete_collection "c" "g" c1St).2.vectors = c1St.vectors
    ∧ alookup "c" (delete_collection "c" "g" c1St).2.collections = none
    ∧ alookup "c" (delete_collection "c" "g" c1St).2.doc_index = none
    ∧ alookup "c" (delete_collection "c" "g" c1St).2.vec_index = none :=
  delete_collection_removes_only_indices "c" "g" c1St (by decide) (by decide) (by decide)
    (by decide)

end Blueband

namespace Blueband

theorem mem_ainsert_elim {β : Type} {k : String} {v : β} {p : String × β}
    {l : List (String × β)} (hp : p ∈ ainsert k v l) : p = (k, v) ∨ p ∈ l := by
  induction l with
  | nil =>
      simp [ainsert] at hp
      exact Or.inl hp
  | cons q rest ih =>
      obtain ⟨k2, v2⟩ := q
      by_cases h : k2 = k
      · simp only [ainsert, if_pos h, List.mem_cons] at hp
        rcases hp with hp | hp
        · exact Or.inl hp
        · exact Or.inr (List.mem_cons_of_mem _ hp)
      · simp only [ainsert, if_neg h, List.mem_cons] at hp
        rcases hp with hp | hp
        · exact Or.inr (by simp [hp])
        · rcases ih hp with h2 | h2
          · exact Or.inl h2
          · exact Or.inr (List.mem_cons_of_mem _ h2)

theorem ainsert_ainsert {β : Type} (k : String) (v w : β) (l : List (String × β)) :
    ainsert k v (ainsert k w l) = ainsert k v l := by
  induction l with
  | nil => simp [ainsert]
  | cons p rest ih =>
      obtain ⟨k2, v2⟩ := p
      by_cases h : k2 = k
      · simp [ainsert, h]
      · simp [ainsert, h, ih]

/-! ### Claim C2: compensation after a failed embedding call -/

/-- Claim C2 (amended): when the embedding collaborator fails, the
compensating `delete_document` removes the chunk list and restores the
document index, and no vectors were stored — the collection observably has no
new documents or vectors — but the DocumentMetadata record of the just-added
document remains in the documents map under its composite key. -/
theorem add_document_and_embed_error_compensation (now idHash : Nat)
    (checksum e caller : String) (request : AddDocumentRequest) (st : StorageState)
    (col : Collection) (chunk_list : List SemanticChunk) (ids : List String)
    (hadmin : is_collection_admin st request.collection_id caller = true)
    (hcol : alookup request.collection_id st.collections = some col)
    (hval : validate_document_content request.content = .ok ())
    (hcap : (match col.settings.max_documents with
             | some m => count_collection_documents st request.collection_id < m
             | none => True))
    (hch : create_semantic_chunks request.content (generate_id "doc" idHash)
             col.settings = some chunk_list)
    (hfreshchunks : alookup (generate_id "doc" idHash) st.chunks = none)
    (hidx : alookup request.collection_id st.doc_index = some ids)
    (hfreshid : (generate_id "doc" idHash) ∉ ids) :
    (add_document_and_embed now idHash checksum (.error e) caller request st).1 =
      .error ("Failed to generate embeddings: " ++ e)
    ∧ (add_document_and_embed now idHash checksum (.error e) caller request st).2.chunks =
      st.chunks
    ∧ (add_document_and_embed now idHash checksum (.error e) caller request st).2.doc_index =
      st.doc_index
    ∧ (add_document_and_embed now idHash checksum (.error e) caller request st).2.vectors =
      st.vectors
    ∧ (add_document_and_embed now idHash checksum (.error e) caller request st).2.vec_index =
      st.vec_index
    ∧ (alookup (composite_key request.collection_id (generate_id "doc" idHash))
        (add_document_and_embed now idHash checksum (.error e) caller request st).2.documents
       ).isSome = true := by
  have hcap2 : (match col.settings.max_documents with
      | some max_docs => count_collection_documents st request.collection_id < max_docs
      | none => true : Bool) = true := by
    cases hmd : col.settings.max_documents with
    | none => rfl
    | some m =>
        rw [hmd] at hcap
        simpa using hcap
  have hadd : add_document now idHash checksum request st =
      (.ok { id := generate_id "doc" idHash
             collection_id := request.collection_id
             title := request.title
             content_type := request.content_type.getD .PlainText
             source_url := request.source_url
             timestamp := now
             total_chunks := chunk_list.length
             size := byteLen request.content
             is_embedded := false
             checksum := checksum },
       { st with
          documents := ainsert (composite_key request.collection_id (generate_id "doc" idHash))
            { id := generate_id "doc" idHash
              collection_id := request.collection_id
              title := request.title
              content_type := request.content_type.getD .PlainText
              source_url := request.source_url
              timestamp := now
              total_chunks := chunk_list.length
              size := byteLen request.content
              is_embedded := false
              checksum := checksum } st.documents,
          chunks := ainsert (generate_id "doc" idHash) chunk_list st.chunks,
          doc_index := ainsert request.collection_id (ids ++ [generate_id "doc" idHash])
            st.doc_index }) := by
    unfold add_document
    rw [hval]
    dsimp only
    rw [hcol]
    dsimp only
    rw [hcap2]
    rw [if_neg (by simp : ¬ (true = false))]
    rw [hch]
    dsimp only
    rw [hidx]
    rfl
  unfold add_document_and_embed
  rw [hadmin, hcol, hadd]
  simp only [Bool.not_true, Bool.false_eq_true, if_false]
  unfold delete_document
  simp only [alookup_ainsert_self]
  have hfilter : (ids ++ [generate_id "doc" idHash]).filter
      (fun i => i ≠ generate_id "doc" idHash) = ids := by
    rw [List.filter_append]
    simp
    intro a ha hEq
    exact hfreshid (hEq ▸ ha)
  rw [hfilter]
  refine ⟨by trivial, ?_, ?_, by trivial, by trivial, ?_⟩
  · exact aerase_ainsert chunk_list hfreshchunks
  · rw [ainsert_ainsert]
    exact ainsert_lookup_eq hidx
  · simp [alookup_ainsert_self]

end Blueband

namespace Blueband

/-- Collection used by the C2 state (chunk window 6, overlap 2). -/
def c2Col : Collection :=
  { id := "c", name := "C", description := none, created_at := 1, updated_at := 1,
    genesis_admin := "alice", admins := ["alice"],
    settings := { embedding_model := "text-embedding-ada-002",
                  proxy_url := "https://proxy.example", chunk_size := 6,
                  chunk_overlap := 2, max_documents := none, auto_embed := true } }

/-- Initial state of the C2 scenario: one empty collection. -/
def c2St : StorageState :=
  { collections := [("c", c2Col)], documents := [], chunks := [], vectors := [],
    doc_index := [("c", [])], vec_index := [("c", [])] }

/-- Ingest request of the C2 scenario. -/
def c2Req : AddDocumentRequest :=
  { collection_id := "c", title := "t", content := ['h', 'i'],
    content_type := none, source_url := none }

/-- Counterexample to C2: the embedding collaborator fails (HTTP 500), the
compensating deletion runs (the error is surfaced, the chunk list and the
document index are restored, no vectors exist), yet the document that was
just added IS still present in the documents map under its composite key
c::doc_a — the claim that it is no longer present in the documents map is
false. -/
theorem add_document_and_embed_documents_map_cex :
    (add_document_and_embed 7 10 "ck" (.error "HTTP 500") "alice" c2Req c2St).1 =
      .error "Failed to generate embeddings: HTTP 500"
    ∧ list_documents
        (add_document_and_embed 7 10 "ck" (.error "HTTP 500") "alice" c2Req c2St).2 "c" = []
    ∧ (add_document_and_embed 7 10 "ck" (.error "HTTP 500") "alice" c2Req c2St).2.vectors = []
    ∧ (alookup "c::doc_a"
        (add_document_and_embed 7 10 "ck" (.error "HTTP 500") "alice" c2Req c2St).2.documents
       ).isSome = true := by
  refine ⟨by decide, by decide, by decide, by decide⟩

/-- Witness for the amended C2 theorem at the concrete C2 scenario. -/
theorem add_document_and_embed_error_compensation_witness :
    (add_document_and_embed 7 10 "ck" (.error "HTTP 500") "alice" c2Req c2St).1 =
      .error ("Failed to generate embeddings: " ++ "HTTP 500")
    ∧ (add_document_and_embed 7 10 "ck" (.error "HTTP 500") "alice" c2Req c2St).2.chunks =
      c2St.chunks
    ∧ (add_document_and_embed 7 10 "ck" (.error "HTTP 500") "alice" c2Req c2St).2.doc_index =
      c2St.doc_index
    ∧ (add_document_and_embed 7 10 "ck" (.error "HTTP 500") "alice" c2Req c2St).2.vectors =
      c2St.vectors
    ∧ (add_document_and_embed 7 10 "ck" (.error "HTTP 500") "alice" c2Req c2St).2.vec_index =
      c2St.vec_index
    ∧ (alookup (composite_key c2Req.collection_id (generate_id "doc" 10))
        (add_document_and_embed 7 10 "ck" (.error "HTTP 500") "alice" c2Req c2St).2.documents
       ).isSome = true :=
  add_document_and_embed_error_compensation 7 10 "ck" "HTTP 500" "alice" c2Req c2St c2Col
    [{ id := "chunk_0", document_id := "doc_a", text := ['h', 'i'], position := 0,
       char_start := 0, char_end := 2, token_count := some 1 }] []
    (by decide) (by decide) (by decide) (by trivial) (by decide) (by decide) (by decide)
    (by decide)

end Blueband

namespace Blueband

/-! ### Claim C10: get_collection_documents uses the wrong key -/

/-- A string without the colon character (document ids are of this shape;
composite storage keys are not). -/
def colon_free (s : String) : Prop := ':' ∉ s.data

instance (s : String) : Decidable (colon_free s) := by
  unfold colon_free
  infer_instance

theorem hexChar_ne_colon (d : Nat) (hd : d < 16) : hexChar d ≠ ':' := by
  interval_cases d <;> decide

theorem colon_not_mem_natToHexAux (fuel n : Nat) : ':' ∉ natToHexAux fuel n := by
  induction fuel generalizing n with
  | zero => simp [natToHexAux]
  | succ f ih =>
      by_cases h : n < 16
      · simp only [natToHexAux, if_pos h, List.mem_singleton]
        exact fun hEq => hexChar_ne_colon n h hEq.symm
      · simp only [natToHexAux, if_neg h, List.mem_append, List.mem_singleton]
        push_neg
        refine ⟨ih (n / 16), ?_⟩
        exact fun hEq => hexChar_ne_colon (n % 16) (Nat.mod_lt n (by norm_num)) hEq.symm

theorem generate_id_doc_colon_free (h : Nat) : colon_free (generate_id "doc" h) := by
  unfold colon_free generate_id natToHexString
  intro hmem
  rw [String.data_append, String.data_append] at hmem
  rcases List.mem_append.mp hmem with h1 | h2
  · rcases List.mem_append.mp h1 with h3 | h4
    · simp at h3
    · simp at h4
  · exact colon_not_mem_natToHexAux (h + 1) h h2

theorem composite_key_not_colon_free (cid did : String) :
    ¬ colon_free (composite_key cid did) := by
  unfold colon_free composite_key
  intro hfree
  apply hfree
  rw [String.data_append, String.data_append]
  refine List.mem_append.mpr (Or.inl (List.mem_append.mpr (Or.inr ?_)))
  decide

/-- Claim C10: in any state whose documents-map keys all contain a colon (as
every key written by `add_document` does: the composite form c::d) and whose
indexed document ids are colon free (as every generated doc id is),
`get_collection_documents(c)` returns the empty list — it looks each indexed
id up as a plain key — and therefore disagrees with `list_documents(c)`
whenever the collection is non-empty.  Moreover `add_document` preserves both
shape hypotheses, so every state populated through `add_document` satisfies
them. -/
theorem get_collection_documents_always_empty (st : StorageState) (cid : String)
    (hkeys : ∀ k ∈ st.documents.map Prod.fst, ¬ colon_free k)
    (hids : ∀ c2 ids, alookup c2 st.doc_index = some ids → ∀ i ∈ ids, colon_free i) :
    get_collection_documents st cid = []
    ∧ (list_documents st cid ≠ [] → get_collection_documents st cid ≠ list_documents st cid)
    ∧ (∀ now idHash checksum req doc st1,
        add_document now idHash checksum req st = (.ok doc, st1) →
        (∀ k ∈ st1.documents.map Prod.fst, ¬ colon_free k)
        ∧ ∀ c2 ids2, alookup c2 st1.doc_index = some ids2 → ∀ i ∈ ids2, colon_free i) := by
  have hempty : get_collection_documents st cid = [] := by
    unfold get_collection_documents
    cases hidx : alookup cid st.doc_index with
    | none => rfl
    | some ids =>
        apply List.filterMap_eq_nil_iff.mpr
        intro i hi
        apply alookup_eq_none_of_not_mem
        intro hmem
        exact hkeys i hmem (hids cid ids hidx i hi)
  refine ⟨hempty, ?_, ?_⟩
  · intro hne
    rw [hempty]
    exact fun hEq => hne hEq.symm
  · intro now idHash checksum req doc st1 hadd
    have hshape : st1.documents =
        ainsert (composite_key req.collection_id (generate_id "doc" idHash))
          (doc) st.documents
        ∧ st1.doc_index = ainsert req.collection_id
            (((alookup req.collection_id st.doc_index).getD []) ++ [generate_id "doc" idHash])
            st.doc_index := by
      unfold add_document at hadd
      cases hval : validate_document_content req.content with
      | error e =>
          rw [hval] at hadd
          simp at hadd
      | ok u =>
          rw [hval] at hadd
          cases hcol : alookup req.collection_id st.collections with
          | none =>
              rw [hcol] at hadd
              simp at hadd
          | some collection =>
              rw [hcol] at hadd
              dsimp only at hadd
              by_cases hcap : (match collection.settings.max_documents with
                  | some max_docs =>
                      decide (count_collection_documents st req.collection_id < max_docs)
                  | none => true) = false
              · rw [if_pos hcap] at hadd
                simp at hadd
              · rw [if_neg hcap] at hadd
                cases hch : create_semantic_chunks req.content (generate_id "doc" idHash)
                    collection.settings with
                | none =>
                    rw [hch] at hadd
                    simp at hadd
                | some chunk_list =>
                    rw [hch] at hadd
                    dsimp only at hadd
                    have hfst := congrArg Prod.fst hadd
                    have hsnd := congrArg Prod.snd hadd
                    dsimp only at hfst hsnd
                    have hdoc := Except.ok.inj hfst
                    rw [← hsnd, ← hdoc]
                    exact ⟨rfl, rfl⟩
    refine ⟨?_, ?_⟩
    · intro k hk
      rw [hshape.1] at hk
      rcases List.mem_map.mp hk with ⟨p, hp, hpk⟩
      rcases mem_ainsert_elim hp with hEq | hmem
      · rw [← hpk, hEq]
        exact composite_key_not_colon_free _ _
      · apply hkeys
        rw [← hpk]
        exact List.mem_map.mpr ⟨p, hmem, rfl⟩
    · intro c2 ids2 hlook2 i hi
      rw [hshape.2] at hlook2
      by_cases hc2 : c2 = req.collection_id
      · subst hc2
        rw [alookup_ainsert_self] at hlook2
        rw [← Option.some_inj.mp hlook2] at hi
        rcases List.mem_append.mp hi with h1 | h2
        · cases hidx2 : alookup req.collection_id st.doc_index with
          | none =>
              rw [hidx2] at h1
              simp at h1
          | some ids0 =>
              rw [hidx2] at h1
              simp only [Option.getD_some] at h1
              exact hids req.collection_id ids0 hidx2 i h1
        · rw [List.mem_singleton.mp h2]
          exact generate_id_doc_colon_free idHash
      · rw [alookup_ainsert_ne _ _ (fun hEq => hc2 hEq.symm)] at hlook2
        exact hids c2 ids2 hlook2 i hi

end Blueband

namespace Blueband

/-- Witness for C10 at the concrete C1 state (one document stored under its
composite key c::d and indexed as d). -/
theorem get_collection_documents_always_empty_witness :
    get_collection_documents c1St "c" = []
    ∧ (list_documents c1St "c" ≠ [] →
        get_collection_documents c1St "c" ≠ list_documents c1St "c")
    ∧ (∀ now idHash checksum req doc st1,
        add_document now idHash checksum req c1St = (.ok doc, st1) →
        (∀ k ∈ st1.documents.map Prod.fst, ¬ colon_free k)
        ∧ ∀ c2 ids2, alookup c2 st1.doc_index = some ids2 → ∀ i ∈ ids2, colon_free i) :=
  get_collection_documents_always_empty c1St "c"
    (by
      intro k hk
      simp only [c1St, List.map_cons, List.map_nil, List.mem_singleton] at hk
      rw [hk]
      decide)
    (by
      intro c2 ids h
      simp only [c1St, alookup] at h
      by_cases hc : "c" = c2
      · rw [if_pos hc] at h
        rw [← Option.some_inj.mp h]
        intro i hi
        rw [List.mem_singleton.mp hi]
        decide
      · rw [if_neg hc] at h
        exact absurd h (by simp))

end Blueband

namespace Blueband

/-! ### Claim C6: vector validation -/

/-- Vector with an empty embedding used by the C6 counterexample. -/
def c6Vec : Vector :=
  { id := "v1", document_id := "d", chunk_id := "chunk_0", embedding := [],
    norm := F32.nan, model := "m", created_at := 1 }

/-- State for the C6 counterexample: collection c holds an indexed vector
whose embedding is empty and whose norm is NaN. -/
def c6St : StorageState :=
  { collections := [("c", c2Col)], documents := [("c::d", c1Doc)],
    chunks := [], vectors := [("v1", c6Vec)],
    doc_index := [("c", ["d"])], vec_index := [("c", ["v1"])] }

/-- Counterexample to C6: collection c contains an indexed vector with an
empty embedding and an invalid (NaN) norm, yet the vector-validation
operation reports nothing (and it has no repair parameter at all in the
source: `validate_collection_vectors(collection_id)` ignores its argument
and only reports index entries missing from the vectors map). -/
theorem validate_collection_vectors_cex :
    validate_collection_vectors "c" c6St = []
    ∧ alookup "v1" c6St.vectors = some c6Vec
    ∧ c6Vec.embedding = []
    ∧ c6Vec.norm.isFinite = false := by
  refine ⟨by decide, by decide, by decide, by decide⟩

/-- Claim C6 (amended): the vector-validation entry point takes a collection
id but ignores it; it reports exactly the dangling ids — entries of any
collection's vector-id index with no corresponding vector in the vectors
map — and nothing else (no empty-embedding, norm or missing-document checks,
and no repair mode exists). -/
theorem validate_collection_vectors_spec (c c2 : String) (st : StorageState) :
    validate_collection_vectors c st = validate_collection_vectors c2 st
    ∧ (validate_collection_vectors c st = [] ↔
        ∀ p ∈ st.vec_index, ∀ i ∈ p.2, acontains i st.vectors = true) := by
  refine ⟨rfl, ?_⟩
  unfold validate_collection_vectors validate_vectors
  constructor
  · intro h p hp i hi
    have hinner := List.flatten_eq_nil_iff.mp h
    have hpmem : (p.2.filter (fun i => !acontains i st.vectors)).map (fun i =>
        "Vector " ++ i ++ " in collection " ++ p.1 ++ " not found in vectors map") ∈
        st.vec_index.map (fun p =>
          (p.2.filter (fun i => !acontains i st.vectors)).map (fun i =>
            "Vector " ++ i ++ " in collection " ++ p.1 ++ " not found in vectors map")) :=
      List.mem_map.mpr ⟨p, hp, rfl⟩
    have hmapnil := hinner _ hpmem
    have hfilnil := List.map_eq_nil_iff.mp hmapnil
    have := List.filter_eq_nil_iff.mp hfilnil i hi
    simpa using this
  · intro h
    apply List.flatten_eq_nil_iff.mpr
    intro l hl
    rcases List.mem_map.mp hl with ⟨p, hp, hpl⟩
    rw [← hpl]
    apply List.map_eq_nil_iff.mpr
    apply List.filter_eq_nil_iff.mpr
    intro i hi
    simp [h p hp i hi]

end Blueband

namespace Blueband

/-! ### Claim C4: validity of stored vectors -/

/-- The property the store paths actually enforce on a vector: non-empty
embedding and a positive finite norm field.  (Finiteness of the individual
embedding entries is NOT checked by the store paths.) -/
def VectorNormOk (v : Vector) : Prop :=
  v.embedding ≠ [] ∧ v.norm.isFinite = true ∧ F32.ble v.norm (F32.finite 0) = false

instance (v : Vector) : Decidable (VectorNormOk v) := by
  unfold VectorNormOk
  infer_instance

theorem get_collection_vectors_sub (st : StorageState) (cid : String) :
    ∀ u ∈ get_collection_vectors st cid, u ∈ st.vectors.map Prod.snd := by
  intro u hu
  unfold get_collection_vectors at hu
  cases hidx : alookup cid st.vec_index with
  | none =>
      rw [hidx] at hu
      simp at hu
  | some ids =>
      rw [hidx] at hu
      rcases List.mem_filterMap.mp hu with ⟨i, _, hlk⟩
      exact alookup_mem_values hlk

theorem store_vector_ok_inv {v : Vector} {st st1 : StorageState}
    (h : store_vector v st = (.ok (), st1)) :
    VectorNormOk v ∧ ∀ w ∈ st1.vectors.map Prod.snd, w = v ∨ w ∈ st.vectors.map Prod.snd := by
  unfold store_vector at h
  by_cases h1 : v.embedding.isEmpty
  · rw [if_pos h1] at h
    simp at h
  · rw [if_neg h1] at h
    by_cases h2 : (F32.ble v.norm (F32.finite 0) || !v.norm.isFinite) = true
    · rw [if_pos h2] at h
      simp at h
    · rw [if_neg h2] at h
      have hok : VectorNormOk v := by
        rw [Bool.or_eq_true] at h2
        push_neg at h2
        refine ⟨by simpa using h1, ?_, by simpa using h2.1⟩
        have := h2.2
        simp only [Bool.not_eq_true'] at this
        simpa using this
      refine ⟨hok, ?_⟩
      cases hext : extract_collection_id_from_document_id st v.document_id with
      | error e =>
          rw [hext] at h
          simp at h
      | ok cid =>
          rw [hext] at h
          dsimp only at h
          by_cases h3 : (!collection_exists st cid) = true
          · rw [if_pos h3] at h
            simp at h
          · rw [if_neg h3] at h
            by_cases h4 : (!document_exists st cid v.document_id) = true
            · rw [if_pos h4] at h
              simp at h
            · rw [if_neg h4] at h
              by_cases h5 : acontains v.id st.vectors = true
              · rw [if_pos h5] at h
                have hsnd := congrArg Prod.snd h
                dsimp only at hsnd
                intro w hw
                rw [← hsnd] at hw
                exact mem_values_ainsert hw
              · rw [if_neg h5] at h
                have hsnd := congrArg Prod.snd h
                dsimp only at hsnd
                intro w hw
                rw [← hsnd] at hw
                exact mem_values_ainsert hw

theorem validate_batch_ok {vs : List Vector} (h : validate_batch vs = none) :
    ∀ v ∈ vs, VectorNormOk v := by
  induction vs with
  | nil => simp
  | cons v rest ih =>
      unfold validate_batch at h
      by_cases h1 : v.embedding.isEmpty
      · rw [if_pos h1] at h
        simp at h
      · rw [if_neg h1] at h
        by_cases h2 : (F32.ble v.norm (F32.finite 0) || !v.norm.isFinite) = true
        · rw [if_pos h2] at h
          simp at h
        · rw [if_neg h2] at h
          intro w hw
          rcases List.mem_cons.mp hw with hv | hv
          · subst hv
            rw [Bool.or_eq_true] at h2
            push_neg at h2
            refine ⟨by simpa using h1, ?_, by simpa using h2.1⟩
            have := h2.2
            simp only [Bool.not_eq_true'] at this
            simpa using this
          · exact ih h w hv

theorem insert_group_values {gvs : List Vector} :
    ∀ {vmap : List (String × Vector)} {ids : List String},
    ∀ w ∈ (insert_group gvs vmap ids).1.map Prod.snd,
      w ∈ gvs ∨ w ∈ vmap.map Prod.snd := by
  induction gvs with
  | nil =>
      intro vmap ids w hw
      exact Or.inr hw
  | cons v rest ih =>
      intro vmap ids w hw
      unfold insert_group at hw
      dsimp only at hw
      rcases ih _ hw with h1 | h1
      · exact Or.inl (List.mem_cons_of_mem _ h1)
      · rcases mem_values_ainsert h1 with h2 | h2
        · exact Or.inl (by simp [h2])
        · exact Or.inr h2

theorem alookup_mem {β : Type} {k : String} {v : β} {l : List (String × β)}
    (h : alookup k l = some v) : (k, v) ∈ l := by
  induction l with
  | nil => simp [alookup] at h
  | cons p rest ih =>
      obtain ⟨k2, v2⟩ := p
      by_cases h2 : k2 = k
      · subst h2
        simp only [alookup, if_pos rfl] at h
        injection h with hv
        rw [← hv]
        exact List.mem_cons_self _ _
      · simp only [alookup, if_neg h2] at h
        exact List.mem_cons_of_mem _ (ih h)

theorem group_by_collection_values {st : StorageState} {l : List Vector} :
    ∀ {acc gs : List (String × List Vector)},
    group_by_collection st l acc = .ok gs →
    ∀ p ∈ gs, ∀ v ∈ p.2, v ∈ l ∨ ∃ q ∈ acc, v ∈ q.2 := by
  induction l with
  | nil =>
      intro acc gs h p hp v hv
      unfold group_by_collection at h
      have : acc = gs := by
        simpa using h
      subst this
      exact Or.inr ⟨p, hp, hv⟩
  | cons u rest ih =>
      intro acc gs h p hp v hv
      unfold group_by_collection at h
      cases hext : extract_collection_id_from_document_id st u.document_id with
      | error e =>
          rw [hext] at h
          simp at h
      | ok cid =>
          rw [hext] at h
          dsimp only at h
          rcases ih h p hp v hv with h1 | h1
          · exact Or.inl (List.mem_cons_of_mem _ h1)
          · rcases h1 with ⟨q, hq, hvq⟩
            rcases mem_ainsert_elim hq with hEq | hmem
            · rw [hEq] at hvq
              dsimp only at hvq
              rcases List.mem_append.mp hvq with h2 | h2
              · cases hlk : alookup cid acc with
                | none =>
                    rw [hlk] at h2
                    simp at h2
                | some l0 =>
                    rw [hlk] at h2
                    simp only [Option.getD_some] at h2
                    exact Or.inr ⟨(cid, l0), alookup_mem hlk, h2⟩
              · exact Or.inl (by simp [List.mem_singleton.mp h2])
            · exact Or.inr ⟨q, hmem, hvq⟩

theorem process_groups_values {gs : List (String × List Vector)} :
    ∀ {st : StorageState} {acc n : Nat} {st1 : StorageState},
    process_groups gs st acc = (.ok n, st1) →
    ∀ w ∈ st1.vectors.map Prod.snd,
      (∃ p ∈ gs, w ∈ p.2) ∨ w ∈ st.vectors.map Prod.snd := by
  induction gs with
  | nil =>
      intro st acc n st1 h w hw
      unfold process_groups at h
      have hsnd := congrArg Prod.snd h
      dsimp only at hsnd
      rw [← hsnd] at hw
      exact Or.inr hw
  | cons g rest ih =>
      intro st acc n st1 h w hw
      obtain ⟨cid, gvs⟩ := g
      unfold process_groups at h
      by_cases hc : (!collection_exists st cid) = true
      · rw [if_pos hc] at h
        simp at h
      · rw [if_neg hc] at h
        rcases ih h w hw with h1 | h1
        · rcases h1 with ⟨p, hp, hvp⟩
          exact Or.inl ⟨p, List.mem_cons_of_mem _ hp, hvp⟩
        · dsimp only at h1
          rcases insert_group_values _ h1 with h2 | h2
          · exact Or.inl ⟨(cid, gvs), by simp, h2⟩
          · exact Or.inr h2

theorem store_vectors_batch_ok_inv {vs : List Vector} {st : StorageState} {n : Nat}
    {st1 : StorageState} (h : store_vectors_batch vs st = (.ok n, st1)) :
    (∀ v ∈ vs, VectorNormOk v)
    ∧ ∀ w ∈ st1.vectors.map Prod.snd, w ∈ vs ∨ w ∈ st.vectors.map Prod.snd := by
  unfold store_vectors_batch at h
  by_cases he : vs.isEmpty
  · rw [if_pos he] at h
    have hsnd := congrArg Prod.snd h
    dsimp only at hsnd
    refine ⟨?_, ?_⟩
    · intro v hv
      rw [List.isEmpty_iff.mp he] at hv
      simp at hv
    · intro w hw
      rw [← hsnd] at hw
      exact Or.inr hw
  · rw [if_neg he] at h
    cases hval : validate_batch vs with
    | some e =>
        rw [hval] at h
        simp at h
    | none =>
        rw [hval] at h
        cases hgr : group_by_collection st vs [] with
        | error e =>
            rw [hgr] at h
            simp at h
        | ok gs =>
            rw [hgr] at h
            refine ⟨validate_batch_ok hval, ?_⟩
            intro w hw
            rcases process_groups_values h w hw with h1 | h1
            · rcases h1 with ⟨p, hp, hvp⟩
              rcases group_by_collection_values hgr p hp w hvp with h2 | h2
              · exact Or.inl h2
              · rcases h2 with ⟨q, hq, _⟩
                simp at hq
            · exact Or.inr h1

/-- Claim C4 (amended): after any successful store path (`store_vector` or
`store_vectors_batch`) from a state whose vectors all have a non-empty
embedding and a positive finite norm, every vector returned by
`get_collection_vectors` still has a non-empty embedding and a positive
finite norm — the store paths validate exactly these two facts.  They do NOT
inspect the embedding entries, so entry-wise finiteness is not enforced (see
the counterexample). -/
theorem stored_vectors_norm_ok (st st1 : StorageState) (cid : String)
    (hstep : (∃ v, store_vector v st = (.ok (), st1))
      ∨ (∃ vs n, store_vectors_batch vs st = (.ok n, st1)))
    (hinv : ∀ w ∈ st.vectors.map Prod.snd, VectorNormOk w) :
    ∀ u ∈ get_collection_vectors st1 cid, VectorNormOk u := by
  intro u hu
  have humem := get_collection_vectors_sub st1 cid u hu
  rcases hstep with ⟨v, hv⟩ | ⟨vs, n, hvs⟩
  · rcases store_vector_ok_inv hv with ⟨hvok, hsub⟩
    rcases hsub u humem with h1 | h1
    · rw [h1]
      exact hvok
    · exact hinv u h1
  · rcases store_vectors_batch_ok_inv hvs with ⟨hvsok, hsub⟩
    rcases hsub u humem with h1 | h1
    · exact hvsok u h1
    · exact hinv u h1

end Blueband

namespace Blueband

/-- Base state for the C4 scenario: collection c with document c::d, no
vectors yet. -/
def c4St : StorageState :=
  { collections := [("c", c2Col)], documents := [("c::d", c1Doc)],
    chunks := [], vectors := [], doc_index := [("c", ["d"])], vec_index := [("c", [])] }

/-- Vector with a NaN embedding entry but a well-formed norm field. -/
def c4BadVec : Vector :=
  { id := "v2", document_id := "d", chunk_id := "chunk_0",
    embedding := [F32.nan], norm := F32.finite 1, model := "m", created_at := 1 }

/-- Well-formed vector used by the C4 witness. -/
def c4GoodVec : Vector :=
  { id := "v3", document_id := "d", chunk_id := "chunk_0",
    embedding := [F32.finite 1], norm := F32.finite 1, model := "m", created_at := 1 }

/-- Counterexample to C4: `store_vector` accepts a vector whose only
embedding entry is NaN (the validation checks only the norm field and
non-emptiness), and `get_collection_vectors` then returns a vector with a
non-finite embedding entry. -/
theorem store_vector_accepts_nan_entry_cex :
    (store_vector c4BadVec c4St).1 = .ok ()
    ∧ get_collection_vectors (store_vector c4BadVec c4St).2 "c" = [c4BadVec]
    ∧ c4BadVec.embedding.all (fun x => x.isFinite) = false := by
  refine ⟨by decide, by decide, by decide⟩

/-- Witness for the amended C4 theorem: a concrete successful store from the
empty vector map. -/
theorem stored_vectors_norm_ok_witness :
    VectorNormOk c4GoodVec :=
  stored_vectors_norm_ok c4St (store_vector c4GoodVec c4St).2 "c"
    (Or.inl ⟨c4GoodVec, by decide⟩) (by decide) c4GoodVec (by decide)

end Blueband

namespace Blueband

/-! ### Claim C5: sliding-window chunking -/

/-- Modelled from the spec: the chunking the specification describes, a
sliding window over UTF-8 CHARACTERS with window length chunk_size chars,
stride chunk_size - overlap chars, keeping the non-empty (post-trim) windows.
Used only to compare the specified behaviour with the source's byte-based
`create_semantic_chunks`. -/
def spec_char_chunks_loop (content : List Char) (csize ov : Nat) :
    Nat → Nat → List (List Char)
  | 0, _ => []
  | fuel + 1, start =>
      if start < content.length then
        let e := min (start + csize) content.length
        let chunk_text := (content.drop start).take (e - start)
        let rest :=
          if e ≥ content.length then []
          else spec_char_chunks_loop content csize ov fuel (e - min ov e)
        if trim_empty chunk_text then rest else chunk_text :: rest
      else []

/-- Modelled from the spec: char-based sliding-window chunk texts. -/
def spec_char_chunks (content : List Char) (csize ov : Nat) : List (List Char) :=
  spec_char_chunks_loop content csize ov (content.length + 1) 0

/-- Settings with chunk_size 4 and overlap 0 for the C5 counterexample. -/
def c5Settings : CollectionSettings :=
  { embedding_model := "m", proxy_url := "https://proxy.example", chunk_size := 4,
    chunk_overlap := 0, max_documents := none, auto_embed := true }

/-- Counterexample to C5: on the four-character content éabc (5 UTF-8 bytes)
with chunk_size 4 and overlap 0, the source chunks by BYTES and produces the
two windows éab ([0,4) bytes) and c ([4,5) bytes), whereas the claimed
character window [0,4) covers the whole content in a single chunk. -/
theorem create_semantic_chunks_bytes_cex :
    (create_semantic_chunks ['é', 'a', 'b', 'c'] "d" c5Settings).map
      (fun cs => cs.map (fun c => c.text)) = some [['é', 'a', 'b'], ['c']]
    ∧ (create_semantic_chunks ['é', 'a', 'b', 'c'] "d" c5Settings).map
      (fun cs => cs.map (fun c => (c.char_start, c.char_end))) = some [(0, 4), (4, 5)]
    ∧ spec_char_chunks ['é', 'a', 'b', 'c'] 4 0 = [['é', 'a', 'b', 'c']] := by
  refine ⟨by decide, by decide, by decide⟩

theorem chunks_loop_spec (content : List Char) (d : String) (csize ov : Nat)
    (hcs : 0 < csize) (hov : ov < csize) :
    ∀ fuel start pos cs,
    chunks_loop content d csize ov fuel start pos = some cs →
    (csize - ov) ∣ start →
    cs.map (fun c => c.position) = List.range' pos cs.length
    ∧ (∀ ch ∈ cs, start ≤ ch.char_start
        ∧ ch.char_end = min (ch.char_start + csize) (byteLen content)
        ∧ (csize - ov) ∣ ch.char_start
        ∧ byteSlice content ch.char_start ch.char_end = some ch.text
        ∧ trim_empty ch.text = false)
    ∧ List.Chain' (fun a b => a.char_start < b.char_start) cs := by
  intro fuel
  induction fuel with
  | zero =>
      intro start pos cs h _
      simp [chunks_loop] at h
  | succ f ih =>
      intro start pos cs h hdvd
      unfold chunks_loop at h
      by_cases hlt : start < byteLen content
      · rw [if_pos hlt] at h
        dsimp only at h
        cases hsl : byteSlice content start (min (start + csize) (byteLen content)) with
        | none =>
            rw [hsl] at h
            simp at h
        | some chunk_text =>
            rw [hsl] at h
            dsimp only at h
            by_cases hend : min (start + csize) (byteLen content) ≥ byteLen content
            · rw [if_pos hend] at h
              dsimp only [Option.map] at h
              injection h with h2
              subst h2
              by_cases hemit : (!trim_empty chunk_text) = true
              · rw [if_pos hemit]
                refine ⟨by simp [List.range'], ?_, by simp⟩
                intro ch hch
                rw [List.mem_singleton.mp hch]
                exact ⟨le_refl _, rfl, hdvd, hsl, by simpa using hemit⟩
              · rw [if_neg hemit]
                exact ⟨rfl, by simp, by simp⟩
            · rw [if_neg hend] at h
              have hlen : start + csize ≤ byteLen content := by
                by_contra hcon
                push_neg at hcon
                exact hend (by rw [min_eq_right (le_of_lt hcon)])
              have hmin : min (start + csize) (byteLen content) = start + csize :=
                min_eq_left hlen
              have hovle : ov ≤ min (start + csize) (byteLen content) := by
                rw [hmin]
                exact le_trans (le_of_lt hov) (Nat.le_add_left csize start)
              have hstart2 : min (start + csize) (byteLen content) -
                  min ov (min (start + csize) (byteLen content)) =
                  start + (csize - ov) := by
                rw [min_eq_left hovle, hmin]
                omega
              rw [hstart2] at h
              cases hrest : chunks_loop content d csize ov f (start + (csize - ov))
                  (if (!trim_empty chunk_text) = true then pos + 1 else pos) with
              | none =>
                  rw [hrest] at h
                  simp at h
              | some tail =>
                  rw [hrest] at h
                  dsimp only [Option.map] at h
                  injection h with h2
                  subst h2
                  have hdvd2 : (csize - ov) ∣ (start + (csize - ov)) :=
                    Nat.dvd_add hdvd dvd_rfl
                  by_cases hemit : (!trim_empty chunk_text) = true
                  · rw [if_pos hemit] at hrest ⊢
                    rcases ih _ _ _ hrest hdvd2 with ⟨ihpos, ihmem, ihchain⟩
                    refine ⟨?_, ?_, ?_⟩
                    · simp only [List.map_cons, List.length_cons, List.range']
                      rw [ihpos]
                    · intro ch hch
                      rcases List.mem_cons.mp hch with hch1 | hch2
                      · rw [hch1]
                        exact ⟨le_refl _, rfl, hdvd, hsl, by simpa using hemit⟩
                      · rcases ihmem ch hch2 with ⟨hle, hrest2⟩
                        refine ⟨?_, hrest2⟩
                        calc start ≤ start + (csize - ov) := Nat.le_add_right _ _
                          _ ≤ ch.char_start := hle
                    · apply List.Chain'.cons'
                      · exact ihchain
                      · intro b hb
                        have hbmem : b ∈ tail := by
                          cases tail with
                          | nil => simp at hb
                          | cons t ts =>
                              simp only [List.head?_cons, Option.mem_def,
                                Option.some_inj] at hb
                              rw [← hb]
                              exact List.mem_cons_self _ _
                        rcases ihmem b hbmem with ⟨hle, _⟩
                        dsimp only
                        calc start < start + (csize - ov) := by omega
                          _ ≤ b.char_start := hle
                  · rw [if_neg hemit] at hrest ⊢
                    rcases ih _ _ _ hrest hdvd2 with ⟨ihpos, ihmem, ihchain⟩
                    refine ⟨ihpos, ?_, ihchain⟩
                    intro ch hch
                    rcases ihmem ch hch with ⟨hle, hrest2⟩
                    refine ⟨le_trans (Nat.le_add_right _ _) hle, hrest2⟩
      · rw [if_neg hlt] at h
        injection h with h2
        subst h2
        exact ⟨rfl, by simp, by simp⟩

/-- Claim C5 (amended): the chunking of `add_document` is a sliding window
over UTF-8 BYTES, not characters: whenever `create_semantic_chunks` returns
(it panics on windows that split a multi-byte character), every chunk's
recorded window satisfies char_end = min(char_start + chunk_size, byte
length), every window start is a multiple of the stride chunk_size −
chunk_overlap, window starts are strictly increasing, each chunk text is the
byte slice of its window and is non-empty after trimming, and positions are
0,1,2,… in order, one per emitted chunk. -/
theorem create_semantic_chunks_byte_windows (content : List Char) (d : String)
    (settings : CollectionSettings) (cs : List SemanticChunk)
    (hcs : 0 < settings.chunk_size)
    (hov : settings.chunk_overlap < settings.chunk_size)
    (h : create_semantic_chunks content d settings = some cs) :
    cs.map (fun c => c.position) = List.range cs.length
    ∧ (∀ ch ∈ cs,
        ch.char_end = min (ch.char_start + settings.chunk_size) (byteLen content)
        ∧ (settings.chunk_size - settings.chunk_overlap) ∣ ch.char_start
        ∧ byteSlice content ch.char_start ch.char_end = some ch.text
        ∧ trim_empty ch.text = false)
    ∧ List.Chain' (fun a b => a.char_start < b.char_start) cs := by
  unfold create_semantic_chunks at h
  rcases chunks_loop_spec content d settings.chunk_size settings.chunk_overlap hcs hov
      (byteLen content + 1) 0 0 cs h (Dvd.intro 0 rfl) with ⟨hpos, hmem, hchain⟩
  refine ⟨?_, ?_, hchain⟩
  · rw [hpos, List.range_eq_range']
  · intro ch hch
    rcases hmem ch hch with ⟨_, h2, h3, h4, h5⟩
    exact ⟨h2, h3, h4, h5⟩

/-- Witness for the amended C5 theorem at the literal S1 scenario of the
spec: content hello world (11 bytes), chunk_size 6, overlap 2. -/
theorem create_semantic_chunks_byte_windows_witness :
    (create_semantic_chunks "hello world".toList "d" c2Col.settings).getD [] =
      (create_semantic_chunks "hello world".toList "d" c2Col.settings).getD []
    ∧ ((create_semantic_chunks "hello world".toList "d" c2Col.settings).getD []).map
        (fun c => c.position) =
      List.range ((create_semantic_chunks "hello world".toList "d" c2Col.settings).getD
        []).length := by
  refine ⟨rfl, ?_⟩
  rcases create_semantic_chunks_byte_windows "hello world".toList "d" c2Col.settings
      ((create_semantic_chunks "hello world".toList "d" c2Col.settings).getD [])
      (by decide) (by decide) (by decide) with ⟨h1, _, _⟩
  exact h1

end Blueband

namespace Blueband

/-! ### Claim C3: cache bounds -/

/-- Sum of the recorded entry sizes of a cache. -/
def cacheSum (l : List (String × CacheEntry)) : Nat :=
  (l.map (fun p => p.2.memory_size)).sum

/-- The cache bookkeeping invariant maintained by the source between
operations: entry keys are unique, every stored key is present in the LRU
order list, and the running total equals the sum of the stored sizes. -/
def CacheInv (c : BoundedCache) : Prop :=
  (c.entries.map Prod.fst).Nodup
  ∧ (∀ k, acontains k c.entries = true → k ∈ c.access_order)
  ∧ c.total_memory = cacheSum c.entries

theorem aerase_keys_sublist {β : Type} (k : String) (l : List (String × β)) :
    ((aerase k l).map Prod.fst).Sublist (l.map Prod.fst) := by
  induction l with
  | nil => simp [aerase]
  | cons p rest ih =>
      obtain ⟨k2, v2⟩ := p
      by_cases h : k2 = k
      · simp only [aerase, if_pos h, List.map_cons]
        exact List.sublist_cons_of_sublist _ (List.Sublist.refl _)
      · simp only [aerase, if_neg h, List.map_cons]
        exact List.Sublist.cons₂ _ ih

theorem alookup_none_aerase {β : Type} {k : String} (k2 : String) {l : List (String × β)}
    (h : alookup k l = none) : alookup k (aerase k2 l) = none := by
  apply alookup_eq_none_of_not_mem
  intro hmem
  have hk : k ∉ l.map Prod.fst := by
    intro hk2
    rcases List.mem_map.mp hk2 with ⟨p, hp, hpk⟩
    have : alookup k l ≠ none := by
      rw [← hpk]
      clear hpk h hmem hk2
      induction l with
      | nil => simp at hp
      | cons q rest ih =>
          obtain ⟨k3, v3⟩ := q
          rcases List.mem_cons.mp hp with h1 | h1
          · rw [← h1]
            simp [alookup]
          · by_cases h3 : k3 = p.1
            · simp [alookup, h3]
            · simp only [alookup, if_neg h3]
              exact ih h1
    exact this h
  exact hk ((aerase_keys_sublist k2 l).mem hmem)

theorem cacheSum_aerase {k : String} {v : CacheEntry} {l : List (String × CacheEntry)}
    (h : alookup k l = some v) :
    cacheSum l = v.memory_size + cacheSum (aerase k l) := by
  induction l with
  | nil => simp [alookup] at h
  | cons p rest ih =>
      obtain ⟨k2, v2⟩ := p
      by_cases h2 : k2 = k
      · subst h2
        simp only [alookup, if_pos rfl] at h
        injection h with hv
        subst hv
        simp [cacheSum, aerase]
      · simp only [alookup, if_neg h2] at h
        simp only [cacheSum, aerase, if_neg h2, List.map_cons, List.sum_cons] at *
        rw [ih h]
        omega

theorem remove_entry_fields (c : BoundedCache) (id : String) :
    (c.remove_entry id).max_memory = c.max_memory
    ∧ (c.remove_entry id).max_entries = c.max_entries := by
  unfold BoundedCache.remove_entry
  cases alookup id c.entries with
  | none => exact ⟨rfl, rfl⟩
  | some e => exact ⟨rfl, rfl⟩

theorem alookup_aerase_ne2 {β : Type} {k k2 : String} {l : List (String × β)}
    (h : k ≠ k2) : alookup k (aerase k2 l) = alookup k l := by
  induction l with
  | nil => simp [aerase]
  | cons p rest ih =>
      obtain ⟨k3, v3⟩ := p
      by_cases h3 : k3 = k2
      · have hne2 : ¬ k2 = k := fun hEq => h hEq.symm
        simp [aerase, h3, alookup, hne2]
      · by_cases h4 : k3 = k
        · simp [aerase, h3, alookup, h4, h]
        · simp [aerase, h3, alookup, h4, h, ih]

theorem remove_entry_inv {c : BoundedCache} (id : String) (h : CacheInv c) :
    CacheInv (c.remove_entry id) := by
  obtain ⟨hnd, hmem, htot⟩ := h
  unfold BoundedCache.remove_entry
  cases hlk : alookup id c.entries with
  | none => exact ⟨hnd, hmem, htot⟩
  | some e =>
      refine ⟨?_, ?_, ?_⟩
      · exact List.Nodup.sublist (aerase_keys_sublist id c.entries) hnd
      · intro k hk
        dsimp only at hk
        have hne : k ≠ id := by
          intro hEq
          subst hEq
          rw [acontains, alookup_aerase_self hnd] at hk
          simp at hk
        have hk2 : acontains k c.entries = true := by
          rw [acontains] at hk ⊢
          rw [alookup_aerase_ne2 hne] at hk
          exact hk
        simp only [List.mem_filter]
        exact ⟨hmem k hk2, by simpa using hne⟩
      · dsimp only
        rw [htot, cacheSum_aerase hlk]
        omega

theorem remove_entry_none_mono {c : BoundedCache} {k : String} (id : String)
    (h : alookup k c.entries = none) :
    alookup k (c.remove_entry id).entries = none := by
  unfold BoundedCache.remove_entry
  cases alookup id c.entries with
  | none => exact h
  | some e => exact alookup_none_aerase id h

theorem remove_expired_fields (c : BoundedCache) (now : Nat) :
    (c.remove_expired_entries now).max_memory = c.max_memory
    ∧ (c.remove_expired_entries now).max_entries = c.max_entries := by
  unfold BoundedCache.remove_expired_entries
  generalize (c.entries.filter (fun p => now - p.2.timestamp ≥ CACHE_TTL)).map Prod.fst = ids
  induction ids generalizing c with
  | nil => exact ⟨rfl, rfl⟩
  | cons i rest ih =>
      simp only [List.foldl_cons]
      rcases ih (c.remove_entry i) with ⟨h1, h2⟩
      rcases remove_entry_fields c i with ⟨h3, h4⟩
      exact ⟨h1.trans h3, h2.trans h4⟩

theorem remove_expired_inv {c : BoundedCache} (now : Nat) (h : CacheInv c) :
    CacheInv (c.remove_expired_entries now) := by
  unfold BoundedCache.remove_expired_entries
  generalize (c.entries.filter (fun p => now - p.2.timestamp ≥ CACHE_TTL)).map Prod.fst = ids
  induction ids generalizing c with
  | nil => exact h
  | cons i rest ih =>
      simp only [List.foldl_cons]
      exact ih (remove_entry_inv i h)

theorem remove_expired_none_mono {c : BoundedCache} {k : String} (now : Nat)
    (h : alookup k c.entries = none) :
    alookup k (c.remove_expired_entries now).entries = none := by
  unfold BoundedCache.remove_expired_entries
  generalize (c.entries.filter (fun p => now - p.2.timestamp ≥ CACHE_TTL)).map Prod.fst = ids
  induction ids generalizing c with
  | nil => exact h
  | cons i rest ih =>
      simp only [List.foldl_cons]
      exact ih (remove_entry_none_mono i h)

end Blueband

namespace Blueband

/-- The key part of the cache invariant that survives the eviction loop
(the running total is stale inside the loop and is recalculated after it). -/
def CacheKeysInv (c : BoundedCache) : Prop :=
  (c.entries.map Prod.fst).Nodup
  ∧ (∀ k, acontains k c.entries = true → k ∈ c.access_order)

theorem aerase_sublist {β : Type} (k : String) (l : List (String × β)) :
    (aerase k l).Sublist l := by
  induction l with
  | nil => simp [aerase]
  | cons p rest ih =>
      obtain ⟨k2, v2⟩ := p
      by_cases h : k2 = k
      · simp only [aerase, if_pos h]
        exact List.sublist_cons_of_sublist _ (List.Sublist.refl _)
      · simp only [aerase, if_neg h]
        exact List.Sublist.cons₂ _ ih

theorem evict_loop_spec (m e total maxM maxE : Nat) :
    ∀ (order : List String) (entries : List (String × CacheEntry)),
    cacheSum (evict_loop m e total maxM maxE order entries).1 ≤ cacheSum entries
    ∧ (((entries.map Prod.fst).Nodup ∧ (∀ k, acontains k entries = true → k ∈ order)) →
        (((evict_loop m e total maxM maxE order entries).1.map Prod.fst).Nodup
         ∧ ∀ k, acontains k (evict_loop m e total maxM maxE order entries).1 = true →
             k ∈ (evict_loop m e total maxM maxE order entries).2))
    ∧ (∃ k, (evict_loop m e total maxM maxE order entries).2 = order.drop k)
    ∧ ((evict_loop m e total maxM maxE order entries).2 = []
        ∨ (total + m ≤ maxM
           ∧ (evict_loop m e total maxM maxE order entries).1.length + e ≤ maxE))
    ∧ (∀ k2, alookup k2 entries = none →
        alookup k2 (evict_loop m e total maxM maxE order entries).1 = none) := by
  intro order
  induction order with
  | nil =>
      intro entries
      refine ⟨le_refl _, ?_, ⟨0, rfl⟩, Or.inl rfl, fun k2 h => h⟩
      intro hinv
      exact ⟨hinv.1, fun k hk => hinv.2 k hk⟩
  | cons lru rest ih =>
      intro entries
      by_cases hcond : total + m > maxM ∨ entries.length + e > maxE
      · have hred : evict_loop m e total maxM maxE (lru :: rest) entries =
            evict_loop m e total maxM maxE rest (aerase lru entries) := by
          rw [evict_loop, if_pos hcond]
        rw [hred]
        rcases ih (aerase lru entries) with ⟨h1, h2, h3, h4, h5⟩
        refine ⟨?_, ?_, ?_, h4, ?_⟩
        · refine le_trans h1 ?_
          exact List.Sublist.sum_le_sum ((aerase_sublist lru entries).map _)
            (by intro x hx; exact Nat.zero_le x)
        · intro hinv
          apply h2
          obtain ⟨hnd, hmem⟩ := hinv
          refine ⟨List.Nodup.sublist (aerase_keys_sublist lru entries) hnd, ?_⟩
          intro k hk
          have hne : k ≠ lru := by
            intro hEq
            subst hEq
            rw [acontains, alookup_aerase_self hnd] at hk
            simp at hk
          rw [acontains, alookup_aerase_ne2 hne] at hk
          rcases List.mem_cons.mp (hmem k hk) with hEq | hmem2
          · exact absurd hEq hne
          · exact hmem2
        · rcases h3 with ⟨k, hk⟩
          exact ⟨k + 1, hk⟩
        · intro k2 hk2
          exact h5 k2 (alookup_none_aerase lru hk2)
      · have hred : evict_loop m e total maxM maxE (lru :: rest) entries =
            (entries, lru :: rest) := by
          rw [evict_loop, if_neg hcond]
        rw [hred]
        push_neg at hcond
        exact ⟨le_refl _, fun hinv => ⟨hinv.1, fun k hk => hinv.2 k hk⟩, ⟨0, rfl⟩,
          Or.inr ⟨hcond.1, hcond.2⟩, fun k2 h => h⟩

end Blueband

namespace Blueband

theorem entries_nil_of_order_nil {l : List (String × CacheEntry)}
    (h : ∀ k, acontains k l = true → k ∈ ([] : List String)) : l = [] := by
  cases l with
  | nil => rfl
  | cons p t =>
      exfalso
      have : acontains p.1 (p :: t) = true := by
        obtain ⟨k, v⟩ := p
        simp [acontains, alookup]
      simpa using h p.1 this

/-- Claim C3 (amended): after `insert`, both cache bounds hold provided the
new entry itself fits (its memory estimate is at most max_memory and
max_entries is at least 1); when room must be made, expired entries are
purged first and the loop then evicts from the least-recently-used head, so
the surviving old entries are a suffix (drop k) of the post-purge access
order, with the new id appended at the most-recent end.  (For an entry whose
estimate exceeds max_memory the loop evicts everything and the insert still
goes through, exceeding the bound — see the counterexample.) -/
theorem cache_insert_bounds (c : BoundedCache) (now : Nat) (id : String)
    (vs : List Vector) (hinv : CacheInv c)
    (hsize : estimate_vectors_memory_size vs ≤ c.max_memory)
    (hent : 1 ≤ c.max_entries) :
    (c.insert now id vs).total_memory ≤ (c.insert now id vs).max_memory
    ∧ (c.insert now id vs).entries.length ≤ (c.insert now id vs).max_entries
    ∧ ∃ k, (c.insert now id vs).access_order =
        ((((if acontains id c.entries then c.remove_entry id else c
           ).remove_expired_entries now).access_order).drop k) ++ [id] := by
  set m := estimate_vectors_memory_size vs with hm
  set c1 := (if acontains id c.entries then c.remove_entry id else c) with hc1
  have hinv1 : CacheInv c1 := by
    rw [hc1]
    by_cases hct : acontains id c.entries
    · rw [if_pos hct]
      exact remove_entry_inv id hinv
    · rw [if_neg hct]
      exact hinv
  have hfields1 : c1.max_memory = c.max_memory ∧ c1.max_entries = c.max_entries := by
    rw [hc1]
    by_cases hct : acontains id c.entries
    · rw [if_pos hct]
      exact remove_entry_fields c id
    · rw [if_neg hct]
      exact ⟨rfl, rfl⟩
  have hnone1 : alookup id c1.entries = none := by
    rw [hc1]
    by_cases hct : acontains id c.entries
    · rw [if_pos hct]
      unfold BoundedCache.remove_entry
      cases hlk : alookup id c.entries with
      | none => exact hlk
      | some e2 => exact alookup_aerase_self hinv.1
    · rw [if_neg hct]
      cases hlk : alookup id c.entries with
      | none => rfl
      | some e2 => exact absurd (by simp [acontains, hlk]) hct
  set c2 := c1.remove_expired_entries now with hc2
  have hinv2 : CacheInv c2 := remove_expired_inv now hinv1
  have hfields2 : c2.max_memory = c.max_memory ∧ c2.max_entries = c.max_entries := by
    rcases remove_expired_fields c1 now with ⟨h1, h2⟩
    rw [hc2]
    exact ⟨h1.trans hfields1.1, h2.trans hfields1.2⟩
  have hnone2 : alookup id c2.entries = none := remove_expired_none_mono now hnone1
  rcases evict_loop_spec m 1 c2.total_memory c2.max_memory c2.max_entries
      c2.access_order c2.entries with ⟨hsum, hkeys, hdrop, hexit, hmono⟩
  set r := evict_loop m 1 c2.total_memory c2.max_memory c2.max_entries
    c2.access_order c2.entries with hr
  have hnoner : alookup id r.1 = none := hmono id hnone2
  have hresult : c.insert now id vs =
      { entries := ainsert id
                     { vectors := vs,
                       timestamp := now,
                       last_accessed := now,
                       memory_size := m } r.1,
        access_order := r.2 ++ [id],
        total_memory := cacheSum r.1 + m,
        max_memory := c2.max_memory,
        max_entries := c2.max_entries } := by
    show BoundedCache.insert c now id vs = _
    unfold BoundedCache.insert BoundedCache.make_space_for BoundedCache.evict_lru
      BoundedCache.recalculate_memory
    dsimp only
    rw [← hc2, ← hr]
    rfl
  have hlen : (ainsert id
                 { vectors := vs,
                   timestamp := now,
                   last_accessed := now,
                   memory_size := m } r.1).length = r.1.length + 1 := by
    rw [ainsert_not_mem _ hnoner]
    simp
  rcases hexit with hord | ⟨hmem, hcount⟩
  · have hentries : r.1 = [] := by
      apply entries_nil_of_order_nil
      intro k hk
      have := (hkeys ⟨hinv2.1, hinv2.2.1⟩).2 k hk
      rw [hord] at this
      exact this
    refine ⟨?_, ?_, ?_⟩
    · rw [hresult]
      dsimp only
      rw [hentries]
      simp only [cacheSum, List.map_nil, List.sum_nil, Nat.zero_add]
      rw [hfields2.1]
      exact hsize
    · rw [hresult]
      dsimp only
      rw [hlen, hentries]
      simp only [List.length_nil, Nat.zero_add]
      rw [hfields2.2]
      exact hent
    · rcases hdrop with ⟨k, hk⟩
      refine ⟨k, ?_⟩
      rw [hresult]
      dsimp only
      rw [hk]
  · refine ⟨?_, ?_, ?_⟩
    · rw [hresult]
      dsimp only
      calc cacheSum r.1 + m ≤ cacheSum c2.entries + m := by
            exact Nat.add_le_add_right hsum m
        _ = c2.total_memory + m := by rw [hinv2.2.2]
        _ ≤ c2.max_memory := by omega
    · rw [hresult]
      dsimp only
      rw [hlen]
      exact hcount
    · rcases hdrop with ⟨k, hk⟩
      refine ⟨k, ?_⟩
      rw [hresult]
      dsimp only
      rw [hk]

end Blueband

namespace Blueband

/-- Vector whose cache-memory estimate exceeds the small test bound. -/
def c3Vec : Vector :=
  { id := "v", document_id := "d", chunk_id := "ch",
    embedding := List.replicate 10 (F32.finite 1), norm := F32.finite 1,
    model := "m", created_at := 1 }

/-- Counterexample to C3: inserting an entry whose memory estimate exceeds
max_memory into a fresh BoundedCache (max_memory 10, max_entries 2) evicts
everything and then admits the entry anyway, leaving
total_memory > max_memory after the insert. -/
theorem cache_insert_exceeds_bound_cex :
    ((BoundedCache.new 10 2).insert 0 "a" [c3Vec]).total_memory >
      ((BoundedCache.new 10 2).insert 0 "a" [c3Vec]).max_memory := by
  decide

/-- Witness for the amended C3 theorem: a concrete insert into an empty cache
with max_memory 1000000 and max_entries 10. -/
theorem cache_insert_bounds_witness :
    ((BoundedCache.new 1000000 10).insert 0 "a" [c3Vec]).total_memory ≤
      ((BoundedCache.new 1000000 10).insert 0 "a" [c3Vec]).max_memory
    ∧ ((BoundedCache.new 1000000 10).insert 0 "a" [c3Vec]).entries.length ≤
      ((BoundedCache.new 1000000 10).insert 0 "a" [c3Vec]).max_entries
    ∧ ∃ k, ((BoundedCache.new 1000000 10).insert 0 "a" [c3Vec]).access_order =
        ((((if acontains "a" (BoundedCache.new 1000000 10).entries then
            (BoundedCache.new 1000000 10).remove_entry "a" else BoundedCache.new 1000000 10
           ).remove_expired_entries 0).access_order).drop k) ++ ["a"] :=
  cache_insert_bounds (BoundedCache.new 1000000 10) 0 "a" [c3Vec]
    ⟨by simp [BoundedCache.new],
     fun k hk => by simp [BoundedCache.new, acontains, alookup] at hk,
     by simp [BoundedCache.new, cacheSum]⟩
    (by decide) (by decide)

end Blueband

namespace Blueband

/-! ### Claim C9: idempotence of the vector batch store -/

/-- The vectors-map effect of a group insert, as a fold of upserts. -/
def foldIns (l : List Vector) (m : List (String × Vector)) : List (String × Vector) :=
  l.foldl (fun acc v => ainsert v.id v acc) m

/-- Total number of vectors across the groups. -/
def sumLens (gs : List (String × List Vector)) : Nat :=
  (gs.map (fun p => p.2.length)).sum

theorem insert_group_map (gvs : List Vector) :
    ∀ (vmap : List (String × Vector)) (ids : List String),
    (insert_group gvs vmap ids).1 = foldIns gvs vmap := by
  induction gvs with
  | nil =>
      intro vmap ids
      rfl
  | cons v rest ih =>
      intro vmap ids
      unfold insert_group
      dsimp only
      rw [ih]
      rfl

theorem insert_group_replay (gvs : List Vector) :
    ∀ (vmap : List (String × Vector)) (ids : List String),
    (∀ v ∈ gvs, alookup v.id vmap = some v) →
    insert_group gvs vmap ids = (vmap, ids, gvs.length) := by
  induction gvs with
  | nil =>
      intro vmap ids _
      rfl
  | cons v rest ih =>
      intro vmap ids hlk
      have hv := hlk v (List.mem_cons_self _ _)
      unfold insert_group
      dsimp only
      rw [ainsert_lookup_eq hv]
      have hct : acontains v.id vmap = true := by simp [acontains, hv]
      rw [hct]
      simp only [if_true]
      rw [ih vmap ids (fun w hw => hlk w (List.mem_cons_of_mem _ hw))]
      rfl

theorem foldIns_lookup_of_not_mem {k : String} (l : List Vector) :
    ∀ (m : List (String × Vector)), k ∉ l.map (fun v => v.id) →
    alookup k (foldIns l m) = alookup k m := by
  induction l with
  | nil =>
      intro m _
      rfl
  | cons v rest ih =>
      intro m hk
      simp only [List.map_cons, List.mem_cons] at hk
      push_neg at hk
      unfold foldIns
      simp only [List.foldl_cons]
      have := ih (ainsert v.id v m) hk.2
      unfold foldIns at this
      rw [this]
      exact alookup_ainsert_ne v m (fun hEq => hk.1 hEq.symm)

theorem foldIns_lookup_self {l : List Vector} (hnd : (l.map (fun v => v.id)).Nodup) :
    ∀ (m : List (String × Vector)), ∀ v ∈ l, alookup v.id (foldIns l m) = some v := by
  induction l with
  | nil =>
      intro m v hv
      simp at hv
  | cons u rest ih =>
      intro m v hv
      simp only [List.map_cons, List.nodup_cons] at hnd
      rcases List.mem_cons.mp hv with h1 | h1
      · subst h1
        unfold foldIns
        simp only [List.foldl_cons]
        have h2 : v.id ∉ rest.map (fun w => w.id) := hnd.1
        have := foldIns_lookup_of_not_mem rest (ainsert v.id v m) h2
        unfold foldIns at this
        rw [this, alookup_ainsert_self]
      · exact ih hnd.2 (ainsert u.id u m) v h1

theorem insert_group_count (gvs : List Vector) :
    ∀ (vmap : List (String × Vector)) (ids : List String),
    (insert_group gvs vmap ids).2.2 = gvs.length := by
  induction gvs with
  | nil =>
      intro vmap ids
      rfl
  | cons v rest ih =>
      intro vmap ids
      unfold insert_group
      dsimp only
      rw [ih]
      rfl

theorem process_groups_fields (gs : List (String × List Vector)) :
    ∀ (st : StorageState) (acc : Nat) (r : Except String Nat) (st1 : StorageState),
    process_groups gs st acc = (r, st1) →
    st1.collections = st.collections ∧ st1.documents = st.documents
    ∧ st1.doc_index = st.doc_index ∧ st1.chunks = st.chunks := by
  induction gs with
  | nil =>
      intro st acc r st1 h
      unfold process_groups at h
      have := congrArg Prod.snd h
      dsimp only at this
      rw [← this]
      exact ⟨rfl, rfl, rfl, rfl⟩
  | cons g rest ih =>
      intro st acc r st1 h
      obtain ⟨cid, gvs⟩ := g
      unfold process_groups at h
      by_cases hc : (!collection_exists st cid) = true
      · rw [if_pos hc] at h
        have := congrArg Prod.snd h
        dsimp only at this
        rw [← this]
        exact ⟨rfl, rfl, rfl, rfl⟩
      · rw [if_neg hc] at h
        rcases ih _ _ _ _ h with ⟨h1, h2, h3, h4⟩
        exact ⟨h1, h2, h3, h4⟩

theorem process_groups_index_mono (gs : List (String × List Vector)) :
    ∀ (st : StorageState) (acc : Nat) (r : Except String Nat) (st1 : StorageState),
    process_groups gs st acc = (r, st1) →
    ∀ k, (alookup k st.vec_index).isSome → (alookup k st1.vec_index).isSome := by
  induction gs with
  | nil =>
      intro st acc r st1 h k hk
      unfold process_groups at h
      have := congrArg Prod.snd h
      dsimp only at this
      rw [← this]
      exact hk
  | cons g rest ih =>
      intro st acc r st1 h k hk
      obtain ⟨cid, gvs⟩ := g
      unfold process_groups at h
      by_cases hc : (!collection_exists st cid) = true
      · rw [if_pos hc] at h
        have := congrArg Prod.snd h
        dsimp only at this
        rw [← this]
        exact hk
      · rw [if_neg hc] at h
        exact ih _ _ _ _ h k (alookup_isSome_ainsert hk)

theorem process_groups_vectors (gs : List (String × List Vector)) :
    ∀ (st : StorageState) (acc n : Nat) (st1 : StorageState),
    process_groups gs st acc = (.ok n, st1) →
    st1.vectors = foldIns (gs.flatMap (fun p => p.2)) st.vectors := by
  induction gs with
  | nil =>
      intro st acc n st1 h
      unfold process_groups at h
      have := congrArg Prod.snd h
      dsimp only at this
      rw [← this]
      rfl
  | cons g rest ih =>
      intro st acc n st1 h
      obtain ⟨cid, gvs⟩ := g
      unfold process_groups at h
      by_cases hc : (!collection_exists st cid) = true
      · rw [if_pos hc] at h
        simp at h
      · rw [if_neg hc] at h
        have := ih _ _ _ _ h
        rw [this]
        dsimp only
        rw [insert_group_map]
        show foldIns (rest.flatMap (fun p => p.2)) (foldIns gvs st.vectors) = _
        unfold foldIns
        rw [← List.foldl_append]
        rfl

theorem process_groups_count (gs : List (String × List Vector)) :
    ∀ (st : StorageState) (acc n : Nat) (st1 : StorageState),
    process_groups gs st acc = (.ok n, st1) → n = acc + sumLens gs := by
  induction gs with
  | nil =>
      intro st acc n st1 h
      unfold process_groups at h
      have := congrArg Prod.fst h
      dsimp only at this
      injection this with h2
      rw [← h2]
      simp [sumLens]
  | cons g rest ih =>
      intro st acc n st1 h
      obtain ⟨cid, gvs⟩ := g
      unfold process_groups at h
      by_cases hc : (!collection_exists st cid) = true
      · rw [if_pos hc] at h
        simp at h
      · rw [if_neg hc] at h
        have := ih _ _ _ _ h
        rw [this]
        rw [insert_group_count]
        simp [sumLens]
        omega

end Blueband

namespace Blueband

theorem flatMap_ainsert_perm (cid : String) (v : Vector) :
    ∀ (acc : List (String × List Vector)),
    ((ainsert cid (((alookup cid acc).getD []) ++ [v]) acc).flatMap
      (fun p => p.2)).Perm ((acc.flatMap (fun p => p.2)) ++ [v]) := by
  intro acc
  induction acc with
  | nil =>
      simp [ainsert, alookup]
  | cons p rest ih =>
      obtain ⟨k2, l2⟩ := p
      by_cases h : k2 = cid
      · subst h
        have e1 : alookup k2 ((k2, l2) :: rest) = some l2 := by simp [alookup]
        rw [e1]
        simp only [Option.getD_some]
        have e2 : ainsert k2 (l2 ++ [v]) ((k2, l2) :: rest) = (k2, l2 ++ [v]) :: rest := by
          simp [ainsert]
        rw [e2]
        simp only [List.flatMap_cons]
        rw [List.append_assoc, List.append_assoc]
        exact List.Perm.append_left l2 List.perm_append_comm
      · have e1 : alookup cid ((k2, l2) :: rest) = alookup cid rest := by
          simp [alookup, h]
        rw [e1]
        have e2 : ainsert cid (((alookup cid rest).getD []) ++ [v]) ((k2, l2) :: rest) =
            (k2, l2) :: ainsert cid (((alookup cid rest).getD []) ++ [v]) rest := by
          simp [ainsert, h]
        rw [e2]
        simp only [List.flatMap_cons]
        rw [List.append_assoc]
        exact List.Perm.append_left l2 ih

theorem group_by_collection_perm (st : StorageState) (l : List Vector) :
    ∀ (acc gs : List (String × List Vector)),
    group_by_collection st l acc = .ok gs →
    (gs.flatMap (fun p => p.2)).Perm ((acc.flatMap (fun p => p.2)) ++ l) := by
  induction l with
  | nil =>
      intro acc gs h
      unfold group_by_collection at h
      injection h with h2
      subst h2
      simp
  | cons v rest ih =>
      intro acc gs h
      unfold group_by_collection at h
      cases hext : extract_collection_id_from_document_id st v.document_id with
      | error e =>
          rw [hext] at h
          simp at h
      | ok cid =>
          rw [hext] at h
          dsimp only at h
          have := ih _ _ h
          refine List.Perm.trans this ?_
          have hperm := flatMap_ainsert_perm cid v acc
          refine List.Perm.trans (List.Perm.append_right rest hperm) ?_
          rw [List.append_assoc]
          exact List.Perm.refl _

theorem extract_congr (st st2 : StorageState) (did : String)
    (hc : st2.collections = st.collections) (hd : st2.documents = st.documents) :
    extract_collection_id_from_document_id st2 did =
      extract_collection_id_from_document_id st did := by
  unfold extract_collection_id_from_document_id list_collections document_exists
    composite_key acontains
  rw [hc, hd]

theorem group_by_congr (st st2 : StorageState) (l : List Vector)
    (hc : st2.collections = st.collections) (hd : st2.documents = st.documents) :
    ∀ acc, group_by_collection st2 l acc = group_by_collection st l acc := by
  induction l with
  | nil =>
      intro acc
      rfl
  | cons v rest ih =>
      intro acc
      unfold group_by_collection
      rw [extract_congr st st2 v.document_id hc hd]
      cases extract_collection_id_from_document_id st v.document_id with
      | error e => rfl
      | ok cid =>
          dsimp only
          exact ih _

theorem process_groups_facts (gs : List (String × List Vector)) :
    ∀ (st : StorageState) (acc n : Nat) (st1 : StorageState),
    process_groups gs st acc = (.ok n, st1) →
    ∀ p ∈ gs, collection_exists st1 p.1 = true ∧ (alookup p.1 st1.vec_index).isSome := by
  induction gs with
  | nil =>
      intro st acc n st1 h p hp
      simp at hp
  | cons g rest ih =>
      intro st acc n st1 h p hp
      obtain ⟨cid, gvs⟩ := g
      unfold process_groups at h
      by_cases hc : (!collection_exists st cid) = true
      · rw [if_pos hc] at h
        simp at h
      · rw [if_neg hc] at h
        rcases List.mem_cons.mp hp with h1 | h1
        · subst h1
          constructor
          · rcases process_groups_fields rest _ _ _ _ h with ⟨hcol, _, _, _⟩
            have hc2 : collection_exists st cid = true := by simpa using hc
            unfold collection_exists at hc2 ⊢
            dsimp only
            rw [hcol]
            exact hc2
          · apply process_groups_index_mono rest _ _ _ _ h
            dsimp only
            rw [alookup_ainsert_self]
            rfl
        · exact ih _ _ _ _ h p h1

theorem process_groups_replay (gs : List (String × List Vector)) :
    ∀ (st : StorageState) (acc : Nat),
    (∀ p ∈ gs, (∀ v ∈ p.2, alookup v.id st.vectors = some v)
      ∧ collection_exists st p.1 = true ∧ (alookup p.1 st.vec_index).isSome) →
    process_groups gs st acc = (.ok (acc + sumLens gs), st) := by
  induction gs with
  | nil =>
      intro st acc _
      unfold process_groups
      simp [sumLens]
  | cons g rest ih =>
      intro st acc hfacts
      obtain ⟨cid, gvs⟩ := g
      rcases hfacts (cid, gvs) (List.mem_cons_self _ _) with ⟨hlk, hcol, hidx⟩
      unfold process_groups
      rw [if_neg (by simp [hcol])]
      dsimp only
      rcases Option.isSome_iff_exists.mp hidx with ⟨ids0, hids0⟩
      rw [hids0]
      simp only [Option.getD_some]
      rw [insert_group_replay gvs st.vectors ids0 hlk]
      dsimp only
      rw [ainsert_lookup_eq hids0]
      have hst : { st with vectors := st.vectors, vec_index := st.vec_index } = st := rfl
      rw [hst]
      have := ih st (acc + gvs.length)
        (fun p hp => hfacts p (List.mem_cons_of_mem _ hp))
      rw [this]
      have : acc + gvs.length + sumLens rest = acc + sumLens ((cid, gvs) :: rest) := by
        simp [sumLens]
        omega
      rw [this]

end Blueband

namespace Blueband

/-- Claim C9: for a batch whose vector ids are distinct, a second
`store_vectors_batch` of the same batch from the state after the first call
returns the same count and leaves the state exactly as it was: the upsert
rewrites identical map entries and appends no index id, because every id
already exists. -/
theorem store_vectors_batch_idempotent (vs : List Vector) (st : StorageState)
    (n : Nat) (st1 : StorageState)
    (hids : (vs.map (fun v => v.id)).Nodup)
    (h1 : store_vectors_batch vs st = (.ok n, st1)) :
    store_vectors_batch vs st1 = (.ok n, st1) := by
  unfold store_vectors_batch at h1 ⊢
  by_cases he : vs.isEmpty
  · rw [if_pos he] at h1 ⊢
    have hf := congrArg Prod.fst h1
    have hs := congrArg Prod.snd h1
    dsimp only at hf hs
    rw [← hf, ← hs]
  · rw [if_neg he] at h1 ⊢
    cases hval : validate_batch vs with
    | some e =>
        rw [hval] at h1
        have h2 : (Prod.mk (Except.error e : Except String Nat) st) =
            (Except.ok n, st1) := h1
        simp at h2
    | none =>
        rw [hval] at h1
        cases hgr : group_by_collection st vs [] with
        | error e =>
            rw [hgr] at h1
            have h2 : (Prod.mk (Except.error e : Except String Nat) st) =
                (Except.ok n, st1) := h1
            simp at h2
        | ok gs =>
            rw [hgr] at h1
            have h2 : process_groups gs st 0 = (Except.ok n, st1) := h1
            rcases process_groups_fields gs st 0 _ st1 h2 with ⟨hcol, hdoc, _, _⟩
            rw [group_by_congr st st1 vs hcol hdoc [], hgr]
            show process_groups gs st1 0 = (Except.ok n, st1)
            have hvec := process_groups_vectors gs st 0 n st1 h2
            have hperm := group_by_collection_perm st vs [] gs hgr
            have hperm2 : (gs.flatMap (fun p => p.2)).Perm vs := by
              refine hperm.trans ?_
              simp
            have hflat_nodup : ((gs.flatMap (fun p => p.2)).map
                (fun v => v.id)).Nodup :=
              (List.Perm.nodup_iff (hperm2.map (fun v => v.id))).mpr hids
            have hfacts := process_groups_facts gs st 0 n st1 h2
            have hcount := process_groups_count gs st 0 n st1 h2
            have hreplay := process_groups_replay gs st1 0 (by
              intro p hp
              refine ⟨?_, (hfacts p hp).1, (hfacts p hp).2⟩
              intro v hv
              rw [hvec]
              exact foldIns_lookup_self hflat_nodup st.vectors v
                (List.mem_flatMap.mpr ⟨p, hp, hv⟩))
            rw [hreplay, hcount]

/-- Batch of two fresh vectors used by the C9 witness. -/
def c9Vec1 : Vector :=
  { id := "w1", document_id := "d", chunk_id := "chunk_0",
    embedding := [F32.finite 1], norm := F32.finite 1, model := "m", created_at := 1 }

/-- Batch of two fresh vectors used by the C9 witness. -/
def c9Vec2 : Vector :=
  { id := "w2", document_id := "d", chunk_id := "chunk_1",
    embedding := [F32.finite 2], norm := F32.finite 2, model := "m", created_at := 1 }

/-- Witness for C9 at a concrete two-vector batch. -/
theorem store_vectors_batch_idempotent_witness :
    store_vectors_batch [c9Vec1, c9Vec2]
        (store_vectors_batch [c9Vec1, c9Vec2] c4St).2 =
      (.ok 2, (store_vectors_batch [c9Vec1, c9Vec2] c4St).2) :=
  store_vectors_batch_idempotent [c9Vec1, c9Vec2] c4St 2
    (store_vectors_batch [c9Vec1, c9Vec2] c4St).2 (by decide) (by decide)

end Blueband

namespace Blueband

/-! ### Claim C8: similarity-search dispatch -/

/-- Claim C8 (amended): on a NON-EMPTY collection with a valid query,
`cosine_similarity_search` takes the approximate path exactly when
use_approximate is set and the vector count exceeds 1000 — building the
coarse index with target_clusters = clamp(count/100, 10, 100), integer
division — and otherwise performs the exact linear scan; either result is
then enriched.  (An empty collection short-circuits to an empty result
before either path; see the counterexample.) -/
theorem cosine_similarity_search_dispatch (q : List F32) (cid : String)
    (cfg : SimilarityConfig) (st : StorageState)
    (hval : validate_embedding q = .ok ())
    (hne : get_collection_vectors st cid ≠ []) :
    cosine_similarity_search q cid cfg st =
      ((if cfg.use_approximate ∧ (get_collection_vectors st cid).length > 1000 then
          search_approximate
            (VectorIndex.build (get_collection_vectors st cid)
              (min (max ((get_collection_vectors st cid).length / 100) 10) 100))
            q cfg
        else
          exact_similarity_search q (get_collection_vectors st cid) cfg).map
        (enrich_matches st cid)) := by
  unfold cosine_similarity_search
  rw [hval]
  have hemp : (get_collection_vectors st cid).isEmpty = false := by
    cases hv : get_collection_vectors st cid with
    | nil => exact absurd hv hne
    | cons a l => rfl
  dsimp only
  rw [hemp, if_neg Bool.false_ne_true]
  by_cases hcond : cfg.use_approximate ∧ (get_collection_vectors st cid).length > 1000
  · rw [if_pos hcond]
    cases hs : search_approximate
        (VectorIndex.build (get_collection_vectors st cid)
          (min (max ((get_collection_vectors st cid).length / 100) 10) 100)) q cfg with
    | error e => rfl
    | ok scored => rfl
  · rw [if_neg hcond]
    cases hs : exact_similarity_search q (get_collection_vectors st cid) cfg with
    | error e => rfl
    | ok scored => rfl

/-- Exact-path configuration used by the C8 counterexample. -/
def c8Cfg : SimilarityConfig :=
  { min_score := none, max_results := 10, use_approximate := false,
    candidate_factor := F32.finite 3 }

/-- Empty storage state. -/
def emptySt : StorageState :=
  { collections := [], documents := [], chunks := [], vectors := [],
    doc_index := [], vec_index := [] }

/-- Counterexample to C8: with an all-zero (valid but zero-norm) query on an
empty collection, the claimed dispatch — `use_approximate` is false, so the
exact linear scan runs — would return the error Invalid norm, but the source
short-circuits on the empty vector set and returns an empty result before
either path. -/
theorem cosine_similarity_search_empty_cex :
    cosine_similarity_search [F32.finite 0] "c" c8Cfg emptySt = .ok []
    ∧ exact_similarity_search [F32.finite 0] (get_collection_vectors emptySt "c") c8Cfg =
      .error "Invalid norm"
    ∧ c8Cfg.use_approximate = false := by
  have h0 : ratSqrt 0 = 0 := by simp [ratSqrt]
  refine ⟨by decide, ?_, by decide⟩
  simp [exact_similarity_search, get_collection_vectors, emptySt, alookup,
    calculate_norm, validate_embedding, fsum, F32.add, F32.mul, F32.fsqrt,
    F32.isFinite, F32.ble, h0]

/-- State with one stored vector used by the C8 witness. -/
def c8St : StorageState :=
  { collections := [("c", c2Col)], documents := [("c::d", c1Doc)],
    chunks := [], vectors := [("v1", c1Vec)],
    doc_index := [("c", ["d"])], vec_index := [("c", ["v1"])] }

/-- Witness for the amended C8 theorem at a concrete one-vector collection
(the exact path is taken since the count is not above 1000). -/
theorem cosine_similarity_search_dispatch_witness :
    cosine_similarity_search [F32.finite 1] "c" c8Cfg c8St =
      ((if c8Cfg.use_approximate ∧ (get_collection_vectors c8St "c").length > 1000 then
          search_approximate
            (VectorIndex.build (get_collection_vectors c8St "c")
              (min (max ((get_collection_vectors c8St "c").length / 100) 10) 100))
            [F32.finite 1] c8Cfg
        else
          exact_similarity_search [F32.finite 1] (get_collection_vectors c8St "c") c8Cfg).map
        (enrich_matches c8St "c")) :=
  cosine_similarity_search_dispatch [F32.finite 1] "c" c8Cfg c8St (by decide) (by decide)

end Blueband
